import Mathlib

/-!
# The Glucose bridge of cspuz_core (`cspuz_core/lib/glucose_bridge.cpp`)

A shallow embedding of the C entry points through which the solver is driven:
clause addition, the constraint registration functions that rebuild structured
constraint arguments from flat `int32_t` arrays, the model query, and the
wrapper that lets an externally implemented propagator take part in the search.

Conventions of the embedding.

* A flat array argument (`const int32_t*`) is a `List Int`: the cells that the
  pointer gives access to.  Reading outside of it is undefined behaviour.
* A C `int` is an `Int`; an arithmetic result outside the 32 bit range is
  undefined behaviour (signed overflow).
* A call either returns a value or ends in a `Fault`: undefined behaviour, or
  `abort()`.
* `Glucose::Solver` and the constraint classes are not part of the bridge.  The
  solver is an arbitrary state type `σ` whose operations are supplied in a
  `SolverApi`; building a constraint object is recorded as a constructor of
  `Constraint` holding the arguments handed to the C++ constructor.
-/

namespace GlucoseBridge

/-! ## Machine model -/

/-- Ways in which a call can end without returning. -/
inductive Fault
  | undefinedBehaviour
  | abort
  deriving DecidableEq, Repr

deriving instance DecidableEq for Except

/-- A computation that returns a value or ends in a `Fault`. -/
abbrev Run := Except Fault

/-- Largest value of a C `int`. -/
def INT_MAX : Int := 2147483647

/-- Smallest value of a C `int`. -/
def INT_MIN : Int := -2147483648

/-- Value of an `int` arithmetic expression whose mathematical result is `v`:
signed overflow is undefined behaviour. -/
def intArith (v : Int) : Run Int :=
  if INT_MIN ≤ v ∧ v ≤ INT_MAX then .ok v else .error .undefinedBehaviour

/-- The read `a[i]` through a pointer `a` to the cells listed in `a`. -/
def readAt (a : List Int) (i : Int) : Run Int :=
  if 0 ≤ i then
    match a[i.toNat]? with
    | some v => .ok v
    | none => .error .undefinedBehaviour
  else .error .undefinedBehaviour

/-- Iterations of a counting loop: `k` more rounds, the counter standing at `i`. -/
def forLoop.go {σ : Type} (body : Int → σ → Run σ) : Nat → Int → σ → Run σ
  | 0, _, s => .ok s
  | k + 1, i, s => body i s >>= fun s' => forLoop.go body k (i + 1) s'

/-- The loop `for (int i = start; i < bound; ++i) body`, for a `bound` that the
body does not change.  It runs `bound - start` rounds, none when `bound ≤ start`;
the counter stays below `bound`, so `++i` cannot overflow. -/
def forLoop {σ : Type} (start bound : Int) (body : Int → σ → Run σ) (s : σ) : Run σ :=
  forLoop.go body (bound - start).toNat start s

/-- Conversion of a C++ `bool` to `int32_t`, as in `return b;` from a function
returning `int32_t`. -/
def boolToInt32 (b : Bool) : Int :=
  match b with
  | true => 1
  | false => 0

/-! ## Data handed to the solver -/

/-- The type `Glucose::Lit`: a literal, stored as its integer code `x`. -/
structure Lit where
  x : Int
  deriving DecidableEq, Repr

/-- The type `Glucose::Var`, an `int`. -/
abbrev Var := Int

/-- Modelled from the spec: `Glucose::lbool` (core/SolverTypes.h is not among the
sources), the three truth values `value(literal) -> {true, false, unknown}`. -/
inductive lbool
  | l_True
  | l_False
  | l_Undef
  deriving DecidableEq, Repr

/-- The struct `Glucose::LinearTerm { lits, domain, coef }`. -/
structure LinearTerm where
  lits : List Lit
  domain : List Int
  coef : Int
  deriving DecidableEq, Repr

/-- The struct `Glucose::OptionalOrderEncoding`, with its members `lits` and `values`. -/
structure OptionalOrderEncoding where
  lits : List Lit
  values : List Int
  deriving DecidableEq, Repr

/-- The class `Glucose::RustExtraConstraint`: the wrapper object of an externally
implemented propagator; `trait_object_` is the caller-owned handle. -/
structure RustExtraConstraint where
  trait_object_ : Nat
  deriving DecidableEq, Repr

/-- A constraint object built by the bridge: the class and the constructor
arguments. -/
inductive Constraint
  | OrderEncodingLinear (terms : List LinearTerm) (constant : Int)
  | ActiveVerticesConnected (lits : List Lit) (edges : List (Int × Int))
  | DirectEncodingExtensionSupports (lits : List (List Lit)) (supports : List (List Int))
  | GraphDivision (vertices : List OptionalOrderEncoding) (graph : List (Int × Int))
      (edge_lits : List Lit)
  | RustExtraConstraint (c : RustExtraConstraint)
  deriving DecidableEq, Repr

/-- The operations of `Glucose::Solver` and of the `Constraint` base class used by
the bridge, and the external callback `Glucose_CallCustomPropagatorPropagate`,
over a solver state `σ`.  None of them is defined in the bridge. -/
structure SolverApi (σ : Type) where
  /-- Method `Solver::addClause(const vec<Lit>&)`. -/
  addClause : σ → List Lit → Bool × σ
  /-- Method `Solver::addConstraint(std::unique_ptr<Constraint>&&)`. -/
  addConstraint : σ → Constraint → Bool × σ
  /-- Method `Solver::modelValue(Var) const`. -/
  modelValue : σ → Var → lbool
  /-- Method `Solver::registerUndo(Var, Constraint*)`. -/
  registerUndo : σ → Var → Constraint → σ
  /-- Function `Glucose::var(Lit)`. -/
  var : Lit → Var
  /-- Method `Constraint::num_pending_propagation()`. -/
  num_pending_propagation : σ → Constraint → Int
  /-- Callback
  `Glucose_CallCustomPropagatorPropagate(solver, wrapper_object, trait_object, p, num_pending_propagations)`. -/
  Glucose_CallCustomPropagatorPropagate : σ → Constraint → Nat → Int → Int → Int × σ
  /-- Callback `Glucose_CallCustomPropagatorUndo(solver, trait_object, p)`. -/
  Glucose_CallCustomPropagatorUndo : σ → Nat → Int → σ

/-! ## The wrapper of an external propagator -/

/-- The method `RustExtraConstraint::propagate(Solver& solver, Lit p)`, lines 15-18. -/
def RustExtraConstraint.propagate {σ : Type} (api : SolverApi σ) (this : RustExtraConstraint)
    (solver : σ) (p : Lit) : Bool × σ :=
  let solver := api.registerUndo solver (api.var p) (.RustExtraConstraint this)
  let r := api.Glucose_CallCustomPropagatorPropagate solver (.RustExtraConstraint this)
    this.trait_object_ p.x (api.num_pending_propagation solver (.RustExtraConstraint this))
  (r.1 != 0, r.2)

/-- The method `RustExtraConstraint::undo(Solver& solver, Lit p)`, lines 24-26. -/
def RustExtraConstraint.undo {σ : Type} (api : SolverApi σ) (this : RustExtraConstraint)
    (solver : σ) (p : Lit) : σ :=
  api.Glucose_CallCustomPropagatorUndo solver this.trait_object_ p.x

/-! ## Entry points -/

/-- The statement `v.push(Lit{arr[i]})` (and `v.push_back(Lit{arr[i]})`) of the loops
that copy literals: round `i` appends the literal whose code is `arr[i]`. -/
def pushLit (arr : List Int) (i : Int) (v : List Lit) : Run (List Lit) := do
  let x ← readAt arr i
  pure (v ++ [Lit.mk x])

/-- Entry point `Glucose_AddClause(solver, lits, n_lits)`, lines 50-56. -/
def Glucose_AddClause {σ : Type} (api : SolverApi σ) (solver : σ) (lits : List Int)
    (n_lits : Int) : Run (Int × σ) := do
  let lits_vec ← forLoop 0 n_lits (pushLit lits) []
  let r := api.addClause solver lits_vec
  pure (boolToInt32 r.1, r.2)

/-- Entry point `Glucose_GetModelValueVar(solver, var)`, lines 66-68; the solver is
`const` and is returned as it was received. -/
def Glucose_GetModelValueVar {σ : Type} (api : SolverApi σ) (solver : σ) (var : Int) :
    Int × σ :=
  (if api.modelValue solver var = lbool.l_True then 1 else 0, solver)

/-- The statement `v.push_back(mk(arr[off++]))` of the loops that cut a flat array
into pieces: the state is the vector `v` and the running offset `off`. -/
def pushNext {α : Type} (arr : List Int) (mk : Int → α) (_j : Int) (st : List α × Int) :
    Run (List α × Int) := do
  let x ← readAt arr st.2
  let off ← intArith (st.2 + 1)
  pure (st.1 ++ [mk x], off)

/-- Locals of the term loop of `Glucose_AddOrderEncodingLinear`. -/
structure LinearLocals where
  terms : List LinearTerm
  lits_offset : Int
  domain_offset : Int
  deriving DecidableEq, Repr

/-- Round `i` of the term loop of `Glucose_AddOrderEncodingLinear`: the two inner
loops fill `term_lits` and `term_domain`, then the term is pushed. -/
def addTerm (domain_size lits domain coefs : List Int) (i : Int) (st : LinearLocals) :
    Run LinearLocals := do
  let d ← readAt domain_size i
  let bound ← intArith (d - 1)
  let term_lits ← forLoop 0 bound (pushNext lits Lit.mk) ([], st.lits_offset)
  let term_domain ← forLoop 0 d (pushNext domain id) ([], st.domain_offset)
  let coef ← readAt coefs i
  pure ⟨st.terms ++ [⟨term_lits.1, term_domain.1, coef⟩], term_lits.2, term_domain.2⟩

/-- Entry point
`Glucose_AddOrderEncodingLinear(solver, n_terms, domain_size, lits, domain, coefs, constant)`,
lines 74-89. -/
def Glucose_AddOrderEncodingLinear {σ : Type} (api : SolverApi σ) (solver : σ) (n_terms : Int)
    (domain_size lits domain coefs : List Int) (constant : Int) : Run (Int × σ) := do
  let st ← forLoop 0 n_terms (addTerm domain_size lits domain coefs) ⟨[], 0, 0⟩
  let r := api.addConstraint solver (.OrderEncodingLinear st.terms constant)
  pure (if r.1 then 1 else 0, r.2)

/-- The statement `g_edges.push_back({edges[i * 2], edges[i * 2 + 1]})` of the edge
loops. -/
def pushEdge (edges : List Int) (i : Int) (g_edges : List (Int × Int)) :
    Run (List (Int × Int)) := do
  let a ← intArith (i * 2)
  let u ← readAt edges a
  let b ← intArith (a + 1)
  let v ← readAt edges b
  pure (g_edges ++ [(u, v)])

/-- Entry point `Glucose_AddActiveVerticesConnected(solver, n_vertices, lits, n_edges, edges)`,
lines 91-101. -/
def Glucose_AddActiveVerticesConnected {σ : Type} (api : SolverApi σ) (solver : σ)
    (n_vertices : Int) (lits : List Int) (n_edges : Int) (edges : List Int) :
    Run (Int × σ) := do
  let g_lits ← forLoop 0 n_vertices (pushLit lits) []
  let g_edges ← forLoop 0 n_edges (pushEdge edges) []
  let r := api.addConstraint solver (.ActiveVerticesConnected g_lits g_edges)
  pure (if r.1 then 1 else 0, r.2)

/-- Round `i` of the variable loop of `Glucose_AddDirectEncodingExtensionSupports`:
the state is `g_lits` and `lits_offset`. -/
def addVarLits (domain_size lits : List Int) (i : Int) (st : List (List Lit) × Int) :
    Run (List (List Lit) × Int) := do
  let d ← readAt domain_size i
  let var_lits ← forLoop 0 d (pushNext lits Lit.mk) ([], st.2)
  pure (st.1 ++ [var_lits.1], var_lits.2)

/-- The statement `s.push_back(supports[i * n_vars + j])`. -/
def pushSupportValue (supports : List Int) (n_vars i j : Int) (s : List Int) :
    Run (List Int) := do
  let row ← intArith (i * n_vars)
  let idx ← intArith (row + j)
  let v ← readAt supports idx
  pure (s ++ [v])

/-- Round `i` of the support loop of `Glucose_AddDirectEncodingExtensionSupports`. -/
def addSupport (supports : List Int) (n_vars i : Int) (g_supports : List (List Int)) :
    Run (List (List Int)) := do
  let s ← forLoop 0 n_vars (pushSupportValue supports n_vars i) []
  pure (g_supports ++ [s])

/-- Entry point
`Glucose_AddDirectEncodingExtensionSupports(solver, n_vars, domain_size, lits, n_supports, supports)`,
lines 103-128, in the build selected by the preprocessor symbol `PUZZLE_SOLVER_MINIMAL`:
the minimal build calls `abort()`, the full build registers the constraint. -/
def Glucose_AddDirectEncodingExtensionSupports {σ : Type} (PUZZLE_SOLVER_MINIMAL : Bool)
    (api : SolverApi σ) (solver : σ) (n_vars : Int) (domain_size lits : List Int)
    (n_supports : Int) (supports : List Int) : Run (Int × σ) :=
  if PUZZLE_SOLVER_MINIMAL then
    .error .abort
  else do
    let st ← forLoop 0 n_vars (addVarLits domain_size lits) ([], 0)
    let g_supports ← forLoop 0 n_supports (addSupport supports n_vars) []
    let r := api.addConstraint solver (.DirectEncodingExtensionSupports st.1 g_supports)
    pure (boolToInt32 r.1, r.2)

/-- Locals of the vertex loop of `Glucose_AddGraphDivision`. -/
structure DivisionLocals where
  vertices : List OptionalOrderEncoding
  domains_offset : Int
  dom_lits_offset : Int
  deriving DecidableEq, Repr

/-- Round `i` of the vertex loop of `Glucose_AddGraphDivision`. -/
def addVertex (dom_sizes domains dom_lits : List Int) (i : Int) (st : DivisionLocals) :
    Run DivisionLocals := do
  let d ← readAt dom_sizes i
  if d > 0 then
    let values ← forLoop 0 d (pushNext domains id) ([], st.domains_offset)
    let lits ← forLoop 1 d (pushNext dom_lits Lit.mk) ([], st.dom_lits_offset)
    pure ⟨st.vertices ++ [⟨lits.1, values.1⟩], values.2, lits.2⟩
  else
    pure ⟨st.vertices ++ [⟨[], []⟩], st.domains_offset, st.dom_lits_offset⟩

/-- Entry point
`Glucose_AddGraphDivision(solver, n_vertices, dom_sizes, domains, dom_lits, n_edges, edges, edge_lits)`,
lines 130-158. -/
def Glucose_AddGraphDivision {σ : Type} (api : SolverApi σ) (solver : σ) (n_vertices : Int)
    (dom_sizes domains dom_lits : List Int) (n_edges : Int) (edges edge_lits : List Int) :
    Run (Int × σ) := do
  let st ← forLoop 0 n_vertices (addVertex dom_sizes domains dom_lits) ⟨[], 0, 0⟩
  let graph ← forLoop 0 n_edges (pushEdge edges) []
  let edge_lits_l ← forLoop 0 n_edges (pushLit edge_lits) []
  let r := api.addConstraint solver (.GraphDivision st.vertices graph edge_lits_l)
  pure (boolToInt32 r.1, r.2)

/-- Entry point `Glucose_AddRustExtraConstraint(solver, trait_object)`, lines 184-186. -/
def Glucose_AddRustExtraConstraint {σ : Type} (api : SolverApi σ) (solver : σ)
    (trait_object : Nat) : Int × σ :=
  let r := api.addConstraint solver (.RustExtraConstraint ⟨trait_object⟩)
  (if r.1 then 1 else 0, r.2)

/-- Entry point `Glucose_CustomPropagatorCopyReason(reason_vec, n_lits, lits)`, lines
188-193; `reason_vec` is the content of the `vec<Lit>` the pointer designates, and the
result its content after the call. -/
def Glucose_CustomPropagatorCopyReason (reason_vec : List Lit) (n_lits : Int)
    (lits : List Int) : Run (List Lit) :=
  forLoop 0 n_lits (pushLit lits) reason_vec

/-! ## Layout of a flat array cut into consecutive pieces -/

/-- Number of cells taken by the pieces before piece `i`, when a piece of announced
size `d` takes `count d` cells. -/
def cellsBefore (count : Int → Nat) (sizes : List Int) (i : Nat) : Nat :=
  ((sizes.take i).map count).sum

/-- The cells of piece `i` of `arr`: it starts where piece `i - 1` stopped and has
`count sizes[i]` cells. -/
def piece (count : Int → Nat) (sizes arr : List Int) (i : Nat) : List Int :=
  (arr.drop (cellsBefore count sizes i)).take (count (sizes.getD i 0))

/-- Number of rounds of `for (j = 0; j < d - 1; ++j)` and of `for (j = 1; j < d; ++j)`:
`d - 1`, and none when `d ≤ 1`. -/
def orderLitCount (d : Int) : Nat := (d - 1).toNat

/-! ## Instances of the solver interface -/

/-- A solver that keeps, in order, the constraints it has been handed, and answers
every registration with the same `verdict`. -/
def recorder (verdict : Bool) : SolverApi (List Constraint) where
  addClause s _ := (verdict, s)
  addConstraint s c := (verdict, s ++ [c])
  modelValue _ _ := lbool.l_Undef
  registerUndo s _ _ := s
  var p := p.x / 2
  num_pending_propagation _ _ := 0
  Glucose_CallCustomPropagatorPropagate s _ _ _ _ := (if verdict then 1 else 0, s)
  Glucose_CallCustomPropagatorUndo s _ _ := s

/-- What `RustExtraConstraint::propagate` does to its surroundings: a registration
for undo, and a call of the external propagate callback with its arguments and the
value it returned. -/
inductive Event
  | registerUndo (v : Var) (c : Constraint)
  | callPropagate (wrapper_object : Constraint) (trait_object : Nat) (p : Int)
      (num_pending_propagations : Int) (returned : Int)
  deriving DecidableEq, Repr

/-- The interface `api` with a journal: every operation does what it does in `api`,
and `registerUndo` and the propagate callback are written down in call order. -/
def SolverApi.traced {σ : Type} (api : SolverApi σ) : SolverApi (σ × List Event) where
  addClause s ps := ((api.addClause s.1 ps).1, ((api.addClause s.1 ps).2, s.2))
  addConstraint s c := ((api.addConstraint s.1 c).1, ((api.addConstraint s.1 c).2, s.2))
  modelValue s v := api.modelValue s.1 v
  registerUndo s v c := (api.registerUndo s.1 v c, s.2 ++ [Event.registerUndo v c])
  var := api.var
  num_pending_propagation s c := api.num_pending_propagation s.1 c
  Glucose_CallCustomPropagatorPropagate s w t p n :=
    ((api.Glucose_CallCustomPropagatorPropagate s.1 w t p n).1,
      ((api.Glucose_CallCustomPropagatorPropagate s.1 w t p n).2,
        s.2 ++ [Event.callPropagate w t p n
          (api.Glucose_CallCustomPropagatorPropagate s.1 w t p n).1]))
  Glucose_CallCustomPropagatorUndo s t p := (api.Glucose_CallCustomPropagatorUndo s.1 t p, s.2)

/-! ## Reads, arithmetic and loops that succeed -/

theorem intArith_ok (v : Int) (hlo : INT_MIN ≤ v) (hhi : v ≤ INT_MAX) : intArith v = .ok v := by
  simp [intArith, hlo, hhi]

theorem ok_bind {α β : Type} (a : α) (f : α → Run β) : ((Except.ok a : Run α) >>= f) = f a :=
  rfl

theorem INT_MIN_le_natCast (n : Nat) : INT_MIN ≤ (n : Int) :=
  Int.le_trans (by decide) (Int.ofNat_nonneg n)

theorem readAt_ok (a : List Int) (i : Nat) (h : i < a.length) :
    readAt a (i : Int) = .ok a[i] := by
  simp [readAt, List.getElem?_eq_getElem h]

theorem forLoop_go_steps {σ : Type} (body : Int → σ → Run σ) (st : Nat → σ) :
    ∀ (k j : Nat), (∀ i, j ≤ i → i < j + k → body (i : Int) (st i) = .ok (st (i + 1))) →
      forLoop.go body k (j : Int) (st j) = .ok (st (j + k)) := by
  intro k
  induction k with
  | zero => intro j _; rfl
  | succ k ih =>
    intro j h
    have hstep : body (j : Int) (st j) = .ok (st (j + 1)) := h j (le_refl j) (by omega)
    have hrest := ih (j + 1) (fun i h1 h2 => h i (by omega) (by omega))
    have hcast : ((j : Int) + 1) = ((j + 1 : Nat) : Int) := by push_cast; rfl
    simp only [forLoop.go, hstep, bind, Except.bind]
    rw [hcast, hrest]
    congr 2
    omega

theorem forLoop_steps {σ : Type} (body : Int → σ → Run σ) (st : Nat → σ) (j : Nat) (bound : Int)
    (h : ∀ i : Nat, j ≤ i → (i : Int) < bound → body (i : Int) (st i) = .ok (st (i + 1))) :
    forLoop (j : Int) bound body (st j) = .ok (st (j + (bound - (j : Int)).toNat)) := by
  rw [forLoop]
  exact forLoop_go_steps body st _ j (fun i h1 h2 => h i h1 (by omega))

theorem take_succ_map {α : Type} (mk : Int → α) (l : List Int) (i : Nat) (h : i < l.length) :
    (l.take (i + 1)).map mk = (l.take i).map mk ++ [mk l[i]] := by
  rw [List.take_succ, List.getElem?_eq_getElem h, List.map_append]
  rfl

theorem pushLit_ok (arr : List Int) (i : Int) (v : List Lit) (x : Int)
    (hx : readAt arr i = .ok x) : pushLit arr i v = .ok (v ++ [Lit.mk x]) := by
  unfold pushLit
  rw [hx, ok_bind]
  rfl

/-- The copying loop `for (i = 0; i < n; ++i) v.push(Lit{arr[i]})` appends the
first `n` cells of `arr`. -/
theorem forLoop_pushLit (arr : List Int) (init : List Lit) (n : Int)
    (hlen : n ≤ arr.length) :
    forLoop 0 n (pushLit arr) init = .ok (init ++ (arr.take n.toNat).map Lit.mk) := by
  have h := forLoop_steps (pushLit arr) (fun i => init ++ (arr.take i).map Lit.mk) 0 n (by
      intro i _ hi
      have hi2 : i < arr.length := by omega
      rw [pushLit_ok arr i _ _ (readAt_ok arr i hi2)]
      show Except.ok (_ ++ List.map _ (List.take i arr) ++ _)
        = Except.ok (init ++ List.map Lit.mk (List.take (i + 1) arr))
      rw [take_succ_map Lit.mk arr i hi2, List.append_assoc])
  simpa using h

theorem pushNext_ok {α : Type} (arr : List Int) (mk : Int → α) (j : Int) (v : List α)
    (o x off : Int) (hx : readAt arr o = .ok x) (hoff : intArith (o + 1) = .ok off) :
    pushNext arr mk j (v, o) = .ok (v ++ [mk x], off) := by
  unfold pushNext
  show (readAt arr o >>= fun x => intArith (o + 1) >>= fun off => pure (v ++ [mk x], off)) = _
  rw [hx, ok_bind, hoff, ok_bind]
  rfl

/-- The cutting loop `for (j = start; j < bound; ++j) v.push_back(mk(arr[off++]))`
appends the next `bound - start` cells of `arr` and advances the offset past them. -/
theorem forLoop_pushNext {α : Type} (arr : List Int) (mk : Int → α) (acc : List α)
    (start : Nat) (bound : Int) (off k : Nat) (hk : k = (bound - (start : Int)).toNat)
    (hlen : off + k ≤ arr.length) (hmax : ((off + k : Nat) : Int) ≤ INT_MAX) :
    forLoop (start : Int) bound (pushNext arr mk) (acc, (off : Int))
      = .ok (acc ++ ((arr.drop off).take k).map mk, ((off + k : Nat) : Int)) := by
  have h := forLoop_steps (pushNext arr mk)
    (fun i => (acc ++ ((arr.drop off).take (i - start)).map mk, ((off + (i - start) : Nat) : Int)))
    start bound (by
      intro i h1 h2
      have hle : off + (i + 1 - start) ≤ off + k := by
        clear hmax; omega
      have hfit := le_trans (Int.ofNat_le.mpr hle) hmax
      clear hmax
      have hi2 : off + (i - start) < arr.length := by omega
      have hd : i - start < (arr.drop off).length := by simp; omega
      have e1 : i + 1 - start = (i - start) + 1 := by omega
      have hget : (arr.drop off)[i - start] = arr[off + (i - start)] := by simp
      have harith : intArith (((off + (i - start) : Nat) : Int) + 1)
          = .ok ((off + (i + 1 - start) : Nat) : Int) := by
        have e2 : ((off + (i - start) : Nat) : Int) + 1 = ((off + (i + 1 - start) : Nat) : Int) := by
          omega
        rw [e2]
        exact intArith_ok _ (INT_MIN_le_natCast _) hfit
      rw [pushNext_ok arr mk _ _ _ _ _ (readAt_ok arr _ hi2) harith]
      show Except.ok (_ ++ List.map _ (List.take (i - start) _) ++ _, _)
        = Except.ok (_ ++ List.map _ (List.take (i + 1 - start) _), _)
      rw [e1, take_succ_map mk _ _ hd, hget, List.append_assoc])
  have e0 : start - start = 0 := Nat.sub_self start
  have e3 : start + (bound - (start : Int)).toNat - start = k := by omega
  simp only [e0, e3, List.take_zero, List.map_nil, List.append_nil, Nat.add_zero] at h
  exact h

theorem forLoop_pushNext_zero {α : Type} (arr : List Int) (mk : Int → α) (bound : Int) (off : Nat)
    (hlen : off + bound.toNat ≤ arr.length)
    (hmax : ((off + bound.toNat : Nat) : Int) ≤ INT_MAX) :
    forLoop 0 bound (pushNext arr mk) ([], (off : Int))
      = .ok (((arr.drop off).take bound.toNat).map mk, ((off + bound.toNat : Nat) : Int)) :=
  forLoop_pushNext arr mk [] 0 bound off bound.toNat (by simp) hlen hmax

theorem forLoop_pushNext_one {α : Type} (arr : List Int) (mk : Int → α) (bound : Int) (off : Nat)
    (hlen : off + (bound - 1).toNat ≤ arr.length)
    (hmax : ((off + (bound - 1).toNat : Nat) : Int) ≤ INT_MAX) :
    forLoop 1 bound (pushNext arr mk) ([], (off : Int))
      = .ok (((arr.drop off).take (bound - 1).toNat).map mk,
          ((off + (bound - 1).toNat : Nat) : Int)) :=
  forLoop_pushNext arr mk [] 1 bound off (bound - 1).toNat (by simp) hlen hmax

theorem pushEdge_ok (edges : List Int) (i : Int) (acc : List (Int × Int)) (a b u v : Int)
    (ha : intArith (i * 2) = .ok a) (hu : readAt edges a = .ok u)
    (hb : intArith (a + 1) = .ok b) (hv : readAt edges b = .ok v) :
    pushEdge edges i acc = .ok (acc ++ [(u, v)]) := by
  unfold pushEdge
  rw [ha, ok_bind, hu, ok_bind, hb, ok_bind, hv, ok_bind]
  rfl

/-- The edge loop pairs up the first `2 * n_edges` cells of `edges`. -/
theorem forLoop_pushEdge (edges : List Int) (n_edges : Int)
    (hlen : 2 * n_edges ≤ edges.length) (hmax : 2 * n_edges ≤ INT_MAX) :
    forLoop 0 n_edges (pushEdge edges) []
      = .ok ((List.range n_edges.toNat).map
          (fun i => (edges.getD (2 * i) 0, edges.getD (2 * i + 1) 0))) := by
  have h := forLoop_steps (pushEdge edges)
    (fun i => (List.range i).map (fun i => (edges.getD (2 * i) 0, edges.getD (2 * i + 1) 0)))
    0 n_edges (by
      intro i _ hi
      have hi1 : 2 * i < edges.length := by omega
      have hi2 : 2 * i + 1 < edges.length := by omega
      have hfit : ((2 * i + 1 : Nat) : Int) ≤ INT_MAX := le_trans (by push_cast; omega) hmax
      have hfit0 : ((2 * i : Nat) : Int) ≤ INT_MAX := le_trans (by push_cast; omega) hmax
      clear hmax
      have ha : intArith ((i : Int) * 2) = .ok ((2 * i : Nat) : Int) := by
        have e : (i : Int) * 2 = ((2 * i : Nat) : Int) := by push_cast; omega
        rw [e]
        exact intArith_ok _ (INT_MIN_le_natCast _) hfit0
      have hb : intArith (((2 * i : Nat) : Int) + 1) = .ok ((2 * i + 1 : Nat) : Int) := by
        have e : ((2 * i : Nat) : Int) + 1 = ((2 * i + 1 : Nat) : Int) := by push_cast; omega
        rw [e]
        exact intArith_ok _ (INT_MIN_le_natCast _) hfit
      rw [pushEdge_ok edges i _ _ _ _ _ ha (readAt_ok edges _ hi1) hb (readAt_ok edges _ hi2)]
      show Except.ok (List.map _ (List.range i) ++ _) = Except.ok (List.map _ (List.range (i + 1)))
      rw [List.range_succ, List.map_append]
      simp [List.getD_eq_getElem?_getD, List.getElem?_eq_getElem hi1, List.getElem?_eq_getElem hi2])
  simpa using h

/-! ## Consecutive pieces of a flat array -/

theorem cellsBefore_zero (count : Int → Nat) (sizes : List Int) : cellsBefore count sizes 0 = 0 := by
  simp [cellsBefore]

theorem cellsBefore_succ (count : Int → Nat) (sizes : List Int) (i : Nat) (h : i < sizes.length) :
    cellsBefore count sizes (i + 1) = cellsBefore count sizes i + count sizes[i] := by
  unfold cellsBefore
  rw [List.take_succ, List.getElem?_eq_getElem h, List.map_append, List.sum_append]
  rfl

theorem cellsBefore_le (count : Int → Nat) (sizes : List Int) (i n : Nat) (hi : i ≤ n)
    (hn : n ≤ sizes.length) : cellsBefore count sizes i ≤ cellsBefore count sizes n := by
  induction n with
  | zero =>
    have : i = 0 := by omega
    rw [this]
  | succ n ih =>
    rcases Nat.lt_or_ge i (n + 1) with h | h
    · have := ih (by omega) (by omega)
      rw [cellsBefore_succ count sizes n (by omega)]
      omega
    · have : i = n + 1 := by omega
      rw [this]

theorem cellsBefore_succ_le (count : Int → Nat) (sizes : List Int) (i n : Nat) (hi : i < n)
    (hn : n ≤ sizes.length) :
    cellsBefore count sizes i + count sizes[i] ≤ cellsBefore count sizes n := by
  rw [← cellsBefore_succ count sizes i (by omega)]
  exact cellsBefore_le count sizes (i + 1) n hi hn

theorem getD_eq_getElem (l : List Int) (i : Nat) (h : i < l.length) : l.getD i 0 = l[i] := by
  simp [List.getD_eq_getElem?_getD, List.getElem?_eq_getElem h]

theorem piece_eq (count : Int → Nat) (sizes arr : List Int) (i : Nat) (h : i < sizes.length) :
    piece count sizes arr i = (arr.drop (cellsBefore count sizes i)).take (count sizes[i]) := by
  unfold piece
  rw [getD_eq_getElem sizes i h]

theorem piece_length (count : Int → Nat) (sizes arr : List Int) (i n : Nat) (hi : i < n)
    (hn : n ≤ sizes.length) (harr : cellsBefore count sizes n ≤ arr.length) :
    (piece count sizes arr i).length = count (sizes.getD i 0) := by
  have h := cellsBefore_succ_le count sizes i n hi hn
  rw [getD_eq_getElem sizes i (by omega)]
  rw [piece_eq count sizes arr i (by omega), List.length_take, List.length_drop]
  omega

/-- Put end to end, the first `n` pieces are the first cells of the array. -/
theorem flatten_pieces (count : Int → Nat) (sizes arr : List Int) (n : Nat)
    (hn : n ≤ sizes.length) :
    ((List.range n).map (piece count sizes arr)).flatten
      = arr.take (cellsBefore count sizes n) := by
  induction n with
  | zero => simp [cellsBefore_zero]
  | succ n ih =>
    rw [List.range_succ, List.map_append, List.flatten_append, ih (by omega),
      cellsBefore_succ count sizes n (by omega), List.take_add, List.map_singleton,
      List.flatten_singleton, piece_eq count sizes arr n (by omega)]

/-! ## The term loop of `Glucose_AddOrderEncodingLinear` -/

theorem addTerm_ok (domain_size lits domain coefs : List Int) (i : Int)
    (terms : List LinearTerm) (lo dof d coef : Int) (tl : List Lit × Int) (td : List Int × Int)
    (hd : readAt domain_size i = .ok d) (hb : intArith (d - 1) = .ok (d - 1))
    (hl : forLoop 0 (d - 1) (pushNext lits Lit.mk) ([], lo) = .ok tl)
    (hdm : forLoop 0 d (pushNext domain id) ([], dof) = .ok td)
    (hc : readAt coefs i = .ok coef) :
    addTerm domain_size lits domain coefs i ⟨terms, lo, dof⟩
      = .ok ⟨terms ++ [⟨tl.1, td.1, coef⟩], tl.2, td.2⟩ := by
  unfold addTerm
  rw [hd, ok_bind, hb, ok_bind]
  show (forLoop 0 (d - 1) (pushNext lits Lit.mk) ([], lo) >>= fun term_lits =>
    forLoop 0 d (pushNext domain id) ([], dof) >>= fun term_domain =>
    readAt coefs i >>= fun coef => pure _) = _
  rw [hl, ok_bind, hdm, ok_bind, hc, ok_bind]
  rfl

theorem natCast_le_INT_MAX_of_le (a b : Nat) (h : a ≤ b) (hb : (b : Int) ≤ INT_MAX) :
    (a : Int) ≤ INT_MAX :=
  le_trans (Int.ofNat_le.mpr h) hb

theorem forLoop_addTerm (domain_size lits domain coefs : List Int) (n : Nat)
    (hds : n ≤ domain_size.length) (hcoefs : n ≤ coefs.length)
    (hnonneg : ∀ i : Nat, i < n → 0 ≤ domain_size.getD i 0)
    (hlits : cellsBefore orderLitCount domain_size n ≤ lits.length)
    (hdom : cellsBefore Int.toNat domain_size n ≤ domain.length)
    (hlitsMax : (cellsBefore orderLitCount domain_size n : Int) ≤ INT_MAX)
    (hdomMax : (cellsBefore Int.toNat domain_size n : Int) ≤ INT_MAX) :
    forLoop 0 (n : Int) (addTerm domain_size lits domain coefs) ⟨[], 0, 0⟩
      = .ok ⟨(List.range n).map (fun k =>
            ⟨(piece orderLitCount domain_size lits k).map Lit.mk,
              piece Int.toNat domain_size domain k, coefs.getD k 0⟩),
          (cellsBefore orderLitCount domain_size n : Int),
          (cellsBefore Int.toNat domain_size n : Int)⟩ := by
  have h := forLoop_steps (addTerm domain_size lits domain coefs)
    (fun i => ⟨(List.range i).map (fun k =>
            ⟨(piece orderLitCount domain_size lits k).map Lit.mk,
              piece Int.toNat domain_size domain k, coefs.getD k 0⟩),
          (cellsBefore orderLitCount domain_size i : Int),
          (cellsBefore Int.toNat domain_size i : Int)⟩) 0 (n : Int) (by
      intro i _ hi
      have hin : i < n := by omega
      have hi1 : i < domain_size.length := by omega
      have hi2 : i < coefs.length := by omega
      have hd0 : 0 ≤ domain_size[i] := by
        have := hnonneg i hin
        rwa [getD_eq_getElem domain_size i hi1] at this
      have hL := cellsBefore_succ_le orderLitCount domain_size i n hin hds
      have hD := cellsBefore_succ_le Int.toNat domain_size i n hin hds
      have hLs := cellsBefore_succ orderLitCount domain_size i hi1
      have hDs := cellsBefore_succ Int.toNat domain_size i hi1
      have hLfit := natCast_le_INT_MAX_of_le _ _ hL hlitsMax
      have hDfit := natCast_le_INT_MAX_of_le _ _ hD hdomMax
      have hdfit : domain_size[i] - 1 ≤ INT_MAX := by
        refine le_trans ?_ hDfit
        push_cast
        have := Int.toNat_of_nonneg hd0
        omega
      have hdlow : INT_MIN ≤ domain_size[i] - 1 := by
        have : INT_MIN ≤ -1 := by decide
        omega
      rw [addTerm_ok domain_size lits domain coefs i _ _ _ domain_size[i] coefs[i] _ _
        (readAt_ok domain_size i hi1) (intArith_ok _ hdlow hdfit)
        (forLoop_pushNext_zero lits Lit.mk (domain_size[i] - 1)
          (cellsBefore orderLitCount domain_size i) (le_trans hL hlits) hLfit)
        (forLoop_pushNext_zero domain id domain_size[i]
          (cellsBefore Int.toNat domain_size i) (le_trans hD hdom) hDfit)
        (readAt_ok coefs i hi2)]
      show Except.ok (LinearLocals.mk (List.map _ (List.range i) ++ _) _ _)
        = Except.ok (LinearLocals.mk (List.map _ (List.range (i + 1))) _ _)
      rw [List.range_succ, List.map_append, hLs, hDs, List.map_singleton,
        piece_eq orderLitCount domain_size lits i hi1,
        piece_eq Int.toNat domain_size domain i hi1, getD_eq_getElem coefs i hi2, List.map_id]
      rfl)
  simpa [cellsBefore_zero] using h

/-! ## The loops of `Glucose_AddDirectEncodingExtensionSupports` -/

theorem addVarLits_ok (domain_size lits : List Int) (i : Int) (g : List (List Lit)) (off d : Int)
    (vl : List Lit × Int) (hd : readAt domain_size i = .ok d)
    (hl : forLoop 0 d (pushNext lits Lit.mk) ([], off) = .ok vl) :
    addVarLits domain_size lits i (g, off) = .ok (g ++ [vl.1], vl.2) := by
  unfold addVarLits
  rw [hd, ok_bind]
  show (forLoop 0 d (pushNext lits Lit.mk) ([], off) >>= fun var_lits => pure _) = _
  rw [hl, ok_bind]
  rfl

theorem forLoop_addVarLits (domain_size lits : List Int) (n : Nat)
    (hds : n ≤ domain_size.length)
    (hlits : cellsBefore Int.toNat domain_size n ≤ lits.length)
    (hlitsMax : (cellsBefore Int.toNat domain_size n : Int) ≤ INT_MAX) :
    forLoop 0 (n : Int) (addVarLits domain_size lits) ([], 0)
      = .ok ((List.range n).map (fun k => (piece Int.toNat domain_size lits k).map Lit.mk),
          (cellsBefore Int.toNat domain_size n : Int)) := by
  have h := forLoop_steps (addVarLits domain_size lits)
    (fun i => ((List.range i).map (fun k => (piece Int.toNat domain_size lits k).map Lit.mk),
          (cellsBefore Int.toNat domain_size i : Int))) 0 (n : Int) (by
      intro i _ hi
      have hin : i < n := by omega
      have hi1 : i < domain_size.length := by omega
      have hL := cellsBefore_succ_le Int.toNat domain_size i n hin hds
      have hLs := cellsBefore_succ Int.toNat domain_size i hi1
      have hLfit := natCast_le_INT_MAX_of_le _ _ hL hlitsMax
      rw [addVarLits_ok domain_size lits i _ _ domain_size[i] _
        (readAt_ok domain_size i hi1)
        (forLoop_pushNext_zero lits Lit.mk domain_size[i]
          (cellsBefore Int.toNat domain_size i) (le_trans hL hlits) hLfit)]
      show Except.ok (List.map _ (List.range i) ++ _, _)
        = Except.ok (List.map _ (List.range (i + 1)), _)
      rw [List.range_succ, List.map_append, hLs, List.map_singleton,
        piece_eq Int.toNat domain_size lits i hi1])
  simpa [cellsBefore_zero] using h

theorem pushSupportValue_ok (supports : List Int) (n_vars i j : Int) (s : List Int)
    (row idx v : Int) (hrow : intArith (i * n_vars) = .ok row)
    (hidx : intArith (row + j) = .ok idx) (hv : readAt supports idx = .ok v) :
    pushSupportValue supports n_vars i j s = .ok (s ++ [v]) := by
  unfold pushSupportValue
  rw [hrow, ok_bind, hidx, ok_bind, hv, ok_bind]
  rfl

/-- Row `i` of the table: the `nv` cells from `i * nv` on. -/
theorem forLoop_pushSupportValue (supports : List Int) (nv i : Nat)
    (hlen : (i + 1) * nv ≤ supports.length)
    (hmax : (((i + 1) * nv : Nat) : Int) - 1 ≤ INT_MAX) :
    forLoop 0 (nv : Int) (pushSupportValue supports (nv : Int) (i : Int)) []
      = .ok ((supports.drop (i * nv)).take nv) := by
  have h := forLoop_steps (pushSupportValue supports (nv : Int) (i : Int))
    (fun j => (supports.drop (i * nv)).take j) 0 (nv : Int) (by
      intro j _ hj
      have hjn : j < nv := by omega
      have hexp : (i + 1) * nv = i * nv + nv := by ring
      have hidx : i * nv + j < supports.length := by omega
      have hfit : ((i * nv + j : Nat) : Int) ≤ INT_MAX := by
        refine le_trans ?_ hmax
        have : i * nv + j + 1 ≤ (i + 1) * nv := by omega
        omega
      have hfit0 : ((i * nv : Nat) : Int) ≤ INT_MAX :=
        natCast_le_INT_MAX_of_le _ _ (Nat.le_add_right _ _) hfit
      have e1 : (i : Int) * (nv : Int) = ((i * nv : Nat) : Int) := by push_cast; rfl
      have e2 : ((i * nv : Nat) : Int) + (j : Int) = ((i * nv + j : Nat) : Int) := by
        push_cast; rfl
      have hd : j < (supports.drop (i * nv)).length := by
        rw [List.length_drop]; omega
      rw [pushSupportValue_ok supports nv i j _ ((i * nv : Nat) : Int) ((i * nv + j : Nat) : Int)
        supports[i * nv + j]
        (by rw [e1]; exact intArith_ok _ (INT_MIN_le_natCast _) hfit0)
        (by rw [e2]; exact intArith_ok _ (INT_MIN_le_natCast _) hfit)
        (readAt_ok supports _ hidx)]
      show Except.ok (List.take j _ ++ _) = Except.ok (List.take (j + 1) _)
      rw [List.take_succ, List.getElem?_eq_getElem hd, List.getElem_drop]
      rfl)
  simpa using h

theorem addSupport_ok (supports : List Int) (n_vars i : Int) (g : List (List Int))
    (s : List Int) (hs : forLoop 0 n_vars (pushSupportValue supports n_vars i) [] = .ok s) :
    addSupport supports n_vars i g = .ok (g ++ [s]) := by
  unfold addSupport
  rw [hs, ok_bind]
  rfl

theorem forLoop_addSupport (supports : List Int) (nv ns : Nat)
    (hlen : ns * nv ≤ supports.length)
    (hmax : ((ns * nv : Nat) : Int) - 1 ≤ INT_MAX) :
    forLoop 0 (ns : Int) (addSupport supports (nv : Int)) []
      = .ok ((List.range ns).map (fun i => (supports.drop (i * nv)).take nv)) := by
  have h := forLoop_steps (addSupport supports (nv : Int))
    (fun k => (List.range k).map (fun i => (supports.drop (i * nv)).take nv)) 0 (ns : Int) (by
      intro i _ hi
      have hin : i + 1 ≤ ns := by omega
      have hmul : (i + 1) * nv ≤ ns * nv := Nat.mul_le_mul_right nv hin
      have hfit : (((i + 1) * nv : Nat) : Int) - 1 ≤ INT_MAX := by
        refine le_trans ?_ hmax
        have := Int.ofNat_le.mpr hmul
        omega
      rw [addSupport_ok supports nv i _ _
        (forLoop_pushSupportValue supports nv i (le_trans hmul hlen) hfit)]
      show Except.ok (List.map _ (List.range i) ++ _) = Except.ok (List.map _ (List.range (i + 1)))
      rw [List.range_succ, List.map_append, List.map_singleton])
  simpa using h

theorem flatten_rows (supports : List Int) (nv ns : Nat) :
    ((List.range ns).map (fun i => (supports.drop (i * nv)).take nv)).flatten
      = supports.take (ns * nv) := by
  induction ns with
  | zero => simp
  | succ k ih =>
    have e : (k + 1) * nv = k * nv + nv := by ring
    rw [List.range_succ, List.map_append, List.flatten_append, ih, List.map_singleton,
      List.flatten_singleton, e, List.take_add]

/-! ## The vertex loop of `Glucose_AddGraphDivision` -/

theorem addVertex_pos (dom_sizes domains dom_lits : List Int) (i : Int)
    (vs : List OptionalOrderEncoding) (dof lo d : Int) (vals : List Int × Int)
    (ls : List Lit × Int) (hd : readAt dom_sizes i = .ok d) (hpos : d > 0)
    (hvals : forLoop 0 d (pushNext domains id) ([], dof) = .ok vals)
    (hls : forLoop 1 d (pushNext dom_lits Lit.mk) ([], lo) = .ok ls) :
    addVertex dom_sizes domains dom_lits i ⟨vs, dof, lo⟩
      = .ok ⟨vs ++ [⟨ls.1, vals.1⟩], vals.2, ls.2⟩ := by
  unfold addVertex
  rw [hd, ok_bind, if_pos hpos]
  show (forLoop 0 d (pushNext domains id) ([], dof) >>= fun values =>
    forLoop 1 d (pushNext dom_lits Lit.mk) ([], lo) >>= fun lits => pure _) = _
  rw [hvals, ok_bind, hls, ok_bind]
  rfl

theorem addVertex_nonpos (dom_sizes domains dom_lits : List Int) (i : Int)
    (vs : List OptionalOrderEncoding) (dof lo d : Int)
    (hd : readAt dom_sizes i = .ok d) (hnonpos : ¬ d > 0) :
    addVertex dom_sizes domains dom_lits i ⟨vs, dof, lo⟩
      = .ok ⟨vs ++ [⟨[], []⟩], dof, lo⟩ := by
  unfold addVertex
  rw [hd, ok_bind, if_neg hnonpos]
  rfl

theorem forLoop_addVertex (dom_sizes domains dom_lits : List Int) (n : Nat)
    (hds : n ≤ dom_sizes.length)
    (hdomains : cellsBefore Int.toNat dom_sizes n ≤ domains.length)
    (hdomlits : cellsBefore orderLitCount dom_sizes n ≤ dom_lits.length)
    (hdomainsMax : (cellsBefore Int.toNat dom_sizes n : Int) ≤ INT_MAX)
    (hdomlitsMax : (cellsBefore orderLitCount dom_sizes n : Int) ≤ INT_MAX) :
    forLoop 0 (n : Int) (addVertex dom_sizes domains dom_lits) ⟨[], 0, 0⟩
      = .ok ⟨(List.range n).map (fun k =>
            ⟨(piece orderLitCount dom_sizes dom_lits k).map Lit.mk,
              piece Int.toNat dom_sizes domains k⟩),
          (cellsBefore Int.toNat dom_sizes n : Int),
          (cellsBefore orderLitCount dom_sizes n : Int)⟩ := by
  have h := forLoop_steps (addVertex dom_sizes domains dom_lits)
    (fun i => ⟨(List.range i).map (fun k =>
            ⟨(piece orderLitCount dom_sizes dom_lits k).map Lit.mk,
              piece Int.toNat dom_sizes domains k⟩),
          (cellsBefore Int.toNat dom_sizes i : Int),
          (cellsBefore orderLitCount dom_sizes i : Int)⟩) 0 (n : Int) (by
      intro i _ hi
      have hin : i < n := by omega
      have hi1 : i < dom_sizes.length := by omega
      have hL := cellsBefore_succ_le orderLitCount dom_sizes i n hin hds
      have hD := cellsBefore_succ_le Int.toNat dom_sizes i n hin hds
      have hLs := cellsBefore_succ orderLitCount dom_sizes i hi1
      have hDs := cellsBefore_succ Int.toNat dom_sizes i hi1
      have hLfit := natCast_le_INT_MAX_of_le _ _ hL hdomlitsMax
      have hDfit := natCast_le_INT_MAX_of_le _ _ hD hdomainsMax
      by_cases hpos : dom_sizes[i] > 0
      · rw [addVertex_pos dom_sizes domains dom_lits i _ _ _ dom_sizes[i] _ _
          (readAt_ok dom_sizes i hi1) hpos
          (forLoop_pushNext_zero domains id dom_sizes[i]
            (cellsBefore Int.toNat dom_sizes i) (le_trans hD hdomains) hDfit)
          (forLoop_pushNext_one dom_lits Lit.mk dom_sizes[i]
            (cellsBefore orderLitCount dom_sizes i) (le_trans hL hdomlits) hLfit)]
        show Except.ok (DivisionLocals.mk (List.map _ (List.range i) ++ _) _ _)
          = Except.ok (DivisionLocals.mk (List.map _ (List.range (i + 1))) _ _)
        rw [List.range_succ, List.map_append, hLs, hDs, List.map_singleton,
          piece_eq orderLitCount dom_sizes dom_lits i hi1,
          piece_eq Int.toNat dom_sizes domains i hi1, List.map_id]
        rfl
      · rw [addVertex_nonpos dom_sizes domains dom_lits i _ _ _ dom_sizes[i]
          (readAt_ok dom_sizes i hi1) hpos]
        have h0 : dom_sizes[i].toNat = 0 := by omega
        have h1 : orderLitCount dom_sizes[i] = 0 := by unfold orderLitCount; omega
        show Except.ok (DivisionLocals.mk (List.map _ (List.range i) ++ _) _ _)
          = Except.ok (DivisionLocals.mk (List.map _ (List.range (i + 1))) _ _)
        rw [List.range_succ, List.map_append, hLs, hDs, List.map_singleton,
          piece_eq orderLitCount dom_sizes dom_lits i hi1,
          piece_eq Int.toNat dom_sizes domains i hi1, h0, h1]
        rfl)
  simpa [cellsBefore_zero] using h

/-! ## Facts shared by the statements -/

theorem boolToInt32_eq_zero (b : Bool) : boolToInt32 b = 0 ↔ b = false := by
  cases b <;> simp [boolToInt32]

theorem boolToInt32_eq_one (b : Bool) : boolToInt32 b = 1 ↔ b = true := by
  cases b <;> simp [boolToInt32]

theorem getElem?_take_map {α : Type} (mk : Int → α) (l : List Int) (n i : Nat) (h : i < n) :
    ((l.take n).map mk)[i]? = (l[i]?).map mk := by
  rw [List.getElem?_map, List.getElem?_take_of_lt h]

theorem copied_length (lits : List Int) (n : Int) (hn : 0 ≤ n) (hlen : n ≤ lits.length) :
    ((((lits.take n.toNat).map Lit.mk).length : Nat) : Int) = n := by
  rw [List.length_map, List.length_take]
  omega

theorem edges_getElem? (edges : List Int) (n i : Nat) (hi : i < n) (hlen : 2 * n ≤ edges.length) :
    ∃ u v : Int, edges[2 * i]? = some u ∧ edges[2 * i + 1]? = some v ∧
      ((List.range n).map (fun i => (edges.getD (2 * i) 0, edges.getD (2 * i + 1) 0)))[i]?
        = some (u, v) := by
  have h1 : 2 * i < edges.length := by omega
  have h2 : 2 * i + 1 < edges.length := by omega
  refine ⟨edges[2 * i], edges[2 * i + 1], List.getElem?_eq_getElem h1,
    List.getElem?_eq_getElem h2, ?_⟩
  rw [List.getElem?_map, List.getElem?_range hi]
  simp [List.getD_eq_getElem?_getD, List.getElem?_eq_getElem h1, List.getElem?_eq_getElem h2]

theorem map_lits_range (f : Nat → List Lit) (g : Nat → List Int) (c : Nat → Int) (n : Nat) :
    ((List.range n).map (fun k => (⟨f k, g k, c k⟩ : LinearTerm))).map (fun t => t.lits)
      = (List.range n).map f := by
  rw [List.map_map]
  rfl

theorem map_domain_range (f : Nat → List Lit) (g : Nat → List Int) (c : Nat → Int) (n : Nat) :
    ((List.range n).map (fun k => (⟨f k, g k, c k⟩ : LinearTerm))).map (fun t => t.domain)
      = (List.range n).map g := by
  rw [List.map_map]
  rfl

theorem flatten_map_pieces {α : Type} (mk : Int → α) (count : Int → Nat) (sizes arr : List Int)
    (n : Nat) (hn : n ≤ sizes.length) :
    ((List.range n).map (fun k => (piece count sizes arr k).map mk)).flatten
      = (arr.take (cellsBefore count sizes n)).map mk := by
  rw [← flatten_pieces count sizes arr n hn, List.map_flatten, List.map_map]
  rfl

theorem row_getElem? (supports : List Int) (nv i j : Nat) (hj : j < nv) :
    ((supports.drop (i * nv)).take nv)[j]? = supports[i * nv + j]? := by
  rw [List.getElem?_take_of_lt hj, List.getElem?_drop]

theorem row_length (supports : List Int) (nv ns i : Nat) (hi : i < ns)
    (hlen : ns * nv ≤ supports.length) : ((supports.drop (i * nv)).take nv).length = nv := by
  have hmul : (i + 1) * nv ≤ ns * nv := Nat.mul_le_mul_right nv hi
  have e : (i + 1) * nv = i * nv + nv := by ring
  rw [List.length_take, List.length_drop]
  omega

theorem bind_eq_ok {α β : Type} (x : Run α) (f : α → Run β) (b : β)
    (h : (x >>= f) = .ok b) : ∃ a, x = .ok a ∧ f a = .ok b := by
  cases x with
  | error e => cases h
  | ok a => exact ⟨a, rfl, h⟩

theorem ite_verdict (ok : Bool) :
    ((if ok then (1 : Int) else 0) = 0 ↔ ok = false) ∧
    ((if ok then (1 : Int) else 0) = 1 ↔ ok = true) ∧
    ((if ok then (1 : Int) else 0) = 0 ∨ (if ok then (1 : Int) else 0) = 1) := by
  cases ok <;> simp

theorem boolToInt32_verdict (ok : Bool) :
    (boolToInt32 ok = 0 ↔ ok = false) ∧ (boolToInt32 ok = 1 ↔ ok = true) ∧
    (boolToInt32 ok = 0 ∨ boolToInt32 ok = 1) := by
  cases ok <;> simp [boolToInt32]

theorem bne_zero_eq_decide (r : Int) : (r != 0) = decide (r ≠ 0) := by
  by_cases h : r = 0
  · subst h; rfl
  · simp [h]

theorem ok_pair_inj {σ : Type} (a r : Int) (s s' : σ)
    (h : (Except.ok (a, s) : Run (Int × σ)) = .ok (r, s')) : r = a ∧ s' = s := by
  injection h with h
  injection h with h1 h2
  exact ⟨h1.symm, h2.symm⟩

theorem eq_ite_of_verdict (ok : Bool) (r : Int) (h0 : r = 0 ↔ ok = false)
    (h1 : r = 1 ↔ ok = true) : r = if ok then 1 else 0 := by
  cases ok
  · simpa using h0
  · simpa using h1

theorem eq_boolToInt32_of_verdict (ok : Bool) (r : Int) (h0 : r = 0 ↔ ok = false)
    (h1 : r = 1 ↔ ok = true) : r = boolToInt32 ok := by
  cases ok
  · simpa [boolToInt32] using h0
  · simpa [boolToInt32] using h1

/-! ## Order-encoded linear constraint -/

/-- C1 (amended). For non-negative domain sizes, `Glucose_AddOrderEncodingLinear` passes
`n_terms` terms in input order; term `i` holds `max (domain_size[i] - 1) 0` order
literals and `domain_size[i]` domain values, cut consecutively from `lits` and `domain`,
and the coefficient `coefs[i]`; the literal lists and domain lists put end to end are the
first cells of `lits` and of `domain`; the constant is passed unchanged. -/
theorem Glucose_AddOrderEncodingLinear_spec {σ : Type} (api : SolverApi σ) (solver : σ)
    (n_terms : Int) (domain_size lits domain coefs : List Int) (constant : Int)
    (hn : 0 ≤ n_terms)
    (hds : n_terms ≤ domain_size.length) (hcoefs : n_terms ≤ coefs.length)
    (hnonneg : ∀ i : Nat, (i : Int) < n_terms → 0 ≤ domain_size.getD i 0)
    (hlits : cellsBefore orderLitCount domain_size n_terms.toNat ≤ lits.length)
    (hdom : cellsBefore Int.toNat domain_size n_terms.toNat ≤ domain.length)
    (hlitsMax : (cellsBefore orderLitCount domain_size n_terms.toNat : Int) ≤ INT_MAX)
    (hdomMax : (cellsBefore Int.toNat domain_size n_terms.toNat : Int) ≤ INT_MAX) :
    ∃ terms : List LinearTerm,
      Glucose_AddOrderEncodingLinear api solver n_terms domain_size lits domain coefs constant
        = .ok (if (api.addConstraint solver (.OrderEncodingLinear terms constant)).1
                then 1 else 0,
              (api.addConstraint solver (.OrderEncodingLinear terms constant)).2) ∧
      (terms.length : Int) = n_terms ∧
      (∀ i : Nat, (i : Int) < n_terms → ∃ t : LinearTerm, terms[i]? = some t ∧
        t.lits = (piece orderLitCount domain_size lits i).map Lit.mk ∧
        (t.lits.length : Int) = max (domain_size.getD i 0 - 1) 0 ∧
        t.domain = piece Int.toNat domain_size domain i ∧
        (t.domain.length : Int) = domain_size.getD i 0 ∧
        coefs[i]? = some t.coef) ∧
      (terms.map (fun t => t.lits)).flatten
        = (lits.take (cellsBefore orderLitCount domain_size n_terms.toNat)).map Lit.mk ∧
      (terms.map (fun t => t.domain)).flatten
        = domain.take (cellsBefore Int.toNat domain_size n_terms.toNat) := by
  obtain ⟨n, rfl⟩ := Int.eq_ofNat_of_zero_le hn
  simp only [Int.toNat_ofNat] at hlits hdom hlitsMax hdomMax ⊢
  have hds' : n ≤ domain_size.length := by omega
  have hcoefs' : n ≤ coefs.length := by omega
  refine ⟨(List.range n).map (fun k =>
      ⟨(piece orderLitCount domain_size lits k).map Lit.mk,
        piece Int.toNat domain_size domain k, coefs.getD k 0⟩), ?_, ?_, ?_, ?_, ?_⟩
  · unfold Glucose_AddOrderEncodingLinear
    rw [forLoop_addTerm domain_size lits domain coefs n hds' hcoefs'
      (fun i hi => hnonneg i (by omega)) hlits hdom hlitsMax hdomMax, ok_bind]
    rfl
  · rw [List.length_map, List.length_range]
  · intro i hi
    have hin : i < n := by omega
    have hd0 := hnonneg i hi
    refine ⟨_, by rw [List.getElem?_map, List.getElem?_range hin]; rfl, rfl, ?_, rfl, ?_, ?_⟩
    · show (((piece orderLitCount domain_size lits i).map Lit.mk).length : Int) = _
      rw [List.length_map, piece_length orderLitCount domain_size lits i n hin hds' hlits]
      unfold orderLitCount
      omega
    · show ((piece Int.toNat domain_size domain i).length : Int) = _
      rw [piece_length Int.toNat domain_size domain i n hin hds' hdom]
      omega
    · show coefs[i]? = some (coefs.getD i 0)
      rw [getD_eq_getElem coefs i (by omega), List.getElem?_eq_getElem]
  · rw [map_lits_range, flatten_map_pieces Lit.mk orderLitCount domain_size lits n hds']
  · rw [map_domain_range, flatten_pieces Int.toNat domain_size domain n hds']

/-- Witness of C1 (amended), at two terms of which the first has domain size 0 and the
second the domain `{0, 1, 2}`: the first term takes no cell, the second two literals. -/
theorem Glucose_AddOrderEncodingLinear_witness :
    ∃ terms : List LinearTerm,
      Glucose_AddOrderEncodingLinear (recorder true) [] 2 [0, 3] [10, 20, 30] [0, 1, 2, 5]
          [7, 8] 4
        = .ok (1, [.OrderEncodingLinear terms 4]) ∧
      (terms.length : Int) = 2 ∧
      (terms.map (fun t => t.lits)).flatten = [⟨10⟩, ⟨20⟩] ∧
      (terms.map (fun t => t.domain)).flatten = [0, 1, 2] := by
  obtain ⟨terms, h, hlen, -, hl, hd⟩ :=
    Glucose_AddOrderEncodingLinear_spec (recorder true) [] 2 [0, 3] [10, 20, 30]
      [0, 1, 2, 5] [7, 8] 4 (by decide) (by decide) (by decide)
      (by
        intro i hi
        have hi2 : i < 2 := by omega
        interval_cases i <;> decide)
      (by decide) (by decide) (by decide) (by decide)
  exact ⟨terms, h, hlen, hl, hd⟩

/-- Counterexample to C1 as stated, at a term whose domain size is 0: the term holds no
literal, not `0 - 1` of them, and the literal lists put end to end are the first two
cells of `lits`, not the first `(0 - 1) + (3 - 1) = 1`. -/
theorem Glucose_AddOrderEncodingLinear_counterexample :
    Glucose_AddOrderEncodingLinear (recorder true) [] 2 [0, 3] [10, 20, 30] [0, 1, 2, 5]
        [7, 8] 4
      = .ok (1, [.OrderEncodingLinear [⟨[], [], 7⟩, ⟨[⟨10⟩, ⟨20⟩], [0, 1, 2], 8⟩] 4]) ∧
    (¬ ∃ terms : List LinearTerm,
      Glucose_AddOrderEncodingLinear (recorder true) [] 2 [0, 3] [10, 20, 30] [0, 1, 2, 5]
          [7, 8] 4
        = .ok (1, [.OrderEncodingLinear terms 4]) ∧
      ∀ (i : Nat) (t : LinearTerm), terms[i]? = some t →
        (t.lits.length : Int) = ([0, 3] : List Int).getD i 0 - 1) ∧
    (¬ ∃ terms : List LinearTerm,
      Glucose_AddOrderEncodingLinear (recorder true) [] 2 [0, 3] [10, 20, 30] [0, 1, 2, 5]
          [7, 8] 4
        = .ok (1, [.OrderEncodingLinear terms 4]) ∧
      (terms.map (fun t => t.lits)).flatten
        = (([10, 20, 30] : List Int).take
            ((([0, 3] : List Int).map (fun d => d - 1)).sum).toNat).map Lit.mk) := by
  have hrun : Glucose_AddOrderEncodingLinear (recorder true) [] 2 [0, 3] [10, 20, 30]
      [0, 1, 2, 5] [7, 8] 4
      = .ok (1, [.OrderEncodingLinear [⟨[], [], 7⟩, ⟨[⟨10⟩, ⟨20⟩], [0, 1, 2], 8⟩] 4]) := by
    decide
  refine ⟨hrun, ?_, ?_⟩
  · rintro ⟨terms, h, hcount⟩
    rw [hrun] at h
    injection h with h
    injection h with _ h
    injection h with h _
    injection h with h _
    subst h
    exact absurd (hcount 0 _ rfl) (by decide)
  · rintro ⟨terms, h, hflat⟩
    rw [hrun] at h
    injection h with h
    injection h with _ h
    injection h with h _
    injection h with h _
    subst h
    exact absurd hflat (by decide)

/-! ## Direct-encoding supports, minimal build -/

/-- C2 (amended). In the build with `PUZZLE_SOLVER_MINIMAL`,
`Glucose_AddDirectEncodingExtensionSupports` aborts the process on every input; it
returns no value. -/
theorem Glucose_AddDirectEncodingExtensionSupports_minimal_aborts {σ : Type}
    (api : SolverApi σ) (solver : σ) (n_vars : Int) (domain_size lits : List Int)
    (n_supports : Int) (supports : List Int) :
    Glucose_AddDirectEncodingExtensionSupports true api solver n_vars domain_size lits
        n_supports supports = .error .abort ∧
    ¬ ∃ out : Int × σ,
      Glucose_AddDirectEncodingExtensionSupports true api solver n_vars domain_size lits
        n_supports supports = .ok out := by
  refine ⟨rfl, ?_⟩
  rintro ⟨out, h⟩
  cases h

/-- Counterexample to C2 as stated: on the table of scenario C the minimal build returns
no value. -/
theorem Glucose_AddDirectEncodingExtensionSupports_minimal_counterexample :
    Glucose_AddDirectEncodingExtensionSupports true (recorder true) [] 2 [2, 2]
        [0, 2, 4, 6] 2 [0, 1, 1, 0] = .error .abort ∧
    ¬ ∃ out : Int × List Constraint,
      Glucose_AddDirectEncodingExtensionSupports true (recorder true) [] 2 [2, 2]
        [0, 2, 4, 6] 2 [0, 1, 1, 0] = .ok out := by
  refine ⟨rfl, ?_⟩
  rintro ⟨out, h⟩
  cases h

/-! ## Direct-encoding supports, full build -/

/-- C3. In the full build, `Glucose_AddDirectEncodingExtensionSupports` passes one literal
list per variable in input order, variable `i` holding `domain_size[i]` literals cut
consecutively from `lits`, and `n_supports` tuples of length `n_vars`, component `j` of
tuple `i` being `supports[i * n_vars + j]`; the tuples put end to end are the first
`n_supports * n_vars` cells of `supports`. -/
theorem Glucose_AddDirectEncodingExtensionSupports_spec {σ : Type} (api : SolverApi σ)
    (solver : σ) (n_vars : Int) (domain_size lits : List Int) (n_supports : Int)
    (supports : List Int)
    (hv : 0 ≤ n_vars) (hs : 0 ≤ n_supports)
    (hds : n_vars ≤ domain_size.length)
    (hnonneg : ∀ i : Nat, (i : Int) < n_vars → 0 ≤ domain_size.getD i 0)
    (hlits : cellsBefore Int.toNat domain_size n_vars.toNat ≤ lits.length)
    (hlitsMax : (cellsBefore Int.toNat domain_size n_vars.toNat : Int) ≤ INT_MAX)
    (hsup : n_supports * n_vars ≤ supports.length)
    (hsupMax : n_supports * n_vars - 1 ≤ INT_MAX) :
    ∃ (g_lits : List (List Lit)) (g_supports : List (List Int)),
      Glucose_AddDirectEncodingExtensionSupports false api solver n_vars domain_size lits
          n_supports supports
        = .ok (boolToInt32
                (api.addConstraint solver
                  (.DirectEncodingExtensionSupports g_lits g_supports)).1,
              (api.addConstraint solver
                (.DirectEncodingExtensionSupports g_lits g_supports)).2) ∧
      (g_lits.length : Int) = n_vars ∧
      (∀ i : Nat, (i : Int) < n_vars → ∃ var_lits : List Lit, g_lits[i]? = some var_lits ∧
        var_lits = (piece Int.toNat domain_size lits i).map Lit.mk ∧
        (var_lits.length : Int) = domain_size.getD i 0) ∧
      (g_supports.length : Int) = n_supports ∧
      (∀ i : Nat, (i : Int) < n_supports → ∃ s : List Int, g_supports[i]? = some s ∧
        (s.length : Int) = n_vars ∧
        ∀ j : Nat, (j : Int) < n_vars → s[j]? = supports[i * n_vars.toNat + j]?) ∧
      g_supports.flatten = supports.take (n_supports * n_vars).toNat := by
  obtain ⟨nv, rfl⟩ := Int.eq_ofNat_of_zero_le hv
  obtain ⟨ns, rfl⟩ := Int.eq_ofNat_of_zero_le hs
  simp only [Int.toNat_ofNat] at hlits hlitsMax ⊢
  have hds' : nv ≤ domain_size.length := by omega
  have hsup' : ns * nv ≤ supports.length := by
    have : ((ns * nv : Nat) : Int) ≤ supports.length := by push_cast; exact hsup
    omega
  have hsupMax' : ((ns * nv : Nat) : Int) - 1 ≤ INT_MAX := by push_cast; exact hsupMax
  have hprod : ((ns : Int) * (nv : Int)).toNat = ns * nv := by
    have : (ns : Int) * (nv : Int) = ((ns * nv : Nat) : Int) := by push_cast; rfl
    rw [this, Int.toNat_ofNat]
  refine ⟨(List.range nv).map (fun k => (piece Int.toNat domain_size lits k).map Lit.mk),
    (List.range ns).map (fun i => (supports.drop (i * nv)).take nv), ?_, ?_, ?_, ?_, ?_, ?_⟩
  · unfold Glucose_AddDirectEncodingExtensionSupports
    rw [if_neg (by decide)]
    rw [forLoop_addVarLits domain_size lits nv hds' hlits hlitsMax, ok_bind,
      forLoop_addSupport supports nv ns hsup' hsupMax', ok_bind]
    rfl
  · rw [List.length_map, List.length_range]
  · intro i hi
    have hin : i < nv := by omega
    have hd0 := hnonneg i hi
    refine ⟨_, by rw [List.getElem?_map, List.getElem?_range hin]; rfl, rfl, ?_⟩
    rw [List.length_map, piece_length Int.toNat domain_size lits i nv hin hds' hlits]
    omega
  · rw [List.length_map, List.length_range]
  · intro i hi
    have hin : i < ns := by omega
    refine ⟨_, by rw [List.getElem?_map, List.getElem?_range hin]; rfl, ?_, ?_⟩
    · rw [row_length supports nv ns i hin hsup']
    · intro j hj
      exact row_getElem? supports nv i j (by omega)
  · rw [flatten_rows, hprod]

/-- Witness of C3, at the table of scenario C: two variables with two values each, supports
`(0, 1)` and `(1, 0)`. -/
theorem Glucose_AddDirectEncodingExtensionSupports_witness :
    ∃ (g_lits : List (List Lit)) (g_supports : List (List Int)),
      Glucose_AddDirectEncodingExtensionSupports false (recorder true) [] 2 [2, 2]
          [0, 2, 4, 6] 2 [0, 1, 1, 0]
        = .ok (1, [.DirectEncodingExtensionSupports g_lits g_supports]) ∧
      (g_lits.length : Int) = 2 ∧
      (g_supports.length : Int) = 2 ∧
      g_supports.flatten = [0, 1, 1, 0] := by
  obtain ⟨g_lits, g_supports, h, hl, -, hs, -, hflat⟩ :=
    Glucose_AddDirectEncodingExtensionSupports_spec (recorder true) [] 2 [2, 2]
      [0, 2, 4, 6] 2 [0, 1, 1, 0] (by decide) (by decide) (by decide)
      (by
        intro i hi
        have hi2 : i < 2 := by omega
        interval_cases i <;> decide)
      (by decide) (by decide) (by decide) (by decide)
  exact ⟨g_lits, g_supports, h, hl, hs, hflat⟩

/-! ## Graph division -/

/-- C4. `Glucose_AddGraphDivision` passes `n_vertices` optional order encodings in input
order: a vertex with `dom_sizes[i] > 0` receives `dom_sizes[i]` values and
`dom_sizes[i] - 1` literals cut consecutively from `domains` and `dom_lits`, a vertex with
`dom_sizes[i] ≤ 0` receives no value and no literal and takes no cell of either array;
the edge list and the edge literal list have `n_edges` entries each, `edge_lits[i]`
standing at the index of the edge `(edges[2i], edges[2i+1])`. -/
theorem Glucose_AddGraphDivision_spec {σ : Type} (api : SolverApi σ) (solver : σ)
    (n_vertices : Int) (dom_sizes domains dom_lits : List Int) (n_edges : Int)
    (edges edge_lits : List Int)
    (hv : 0 ≤ n_vertices) (he : 0 ≤ n_edges)
    (hds : n_vertices ≤ dom_sizes.length)
    (hdomains : cellsBefore Int.toNat dom_sizes n_vertices.toNat ≤ domains.length)
    (hdomlits : cellsBefore orderLitCount dom_sizes n_vertices.toNat ≤ dom_lits.length)
    (hdomainsMax : (cellsBefore Int.toNat dom_sizes n_vertices.toNat : Int) ≤ INT_MAX)
    (hdomlitsMax : (cellsBefore orderLitCount dom_sizes n_vertices.toNat : Int) ≤ INT_MAX)
    (hedges : 2 * n_edges ≤ edges.length) (hedgesMax : 2 * n_edges ≤ INT_MAX)
    (hedgeLits : n_edges ≤ edge_lits.length) :
    ∃ (vertices : List OptionalOrderEncoding) (graph : List (Int × Int))
        (edge_lits_l : List Lit),
      Glucose_AddGraphDivision api solver n_vertices dom_sizes domains dom_lits n_edges
          edges edge_lits
        = .ok (boolToInt32
                (api.addConstraint solver (.GraphDivision vertices graph edge_lits_l)).1,
              (api.addConstraint solver (.GraphDivision vertices graph edge_lits_l)).2) ∧
      (vertices.length : Int) = n_vertices ∧
      (∀ i : Nat, (i : Int) < n_vertices → ∃ ooe : OptionalOrderEncoding,
        vertices[i]? = some ooe ∧
        ooe.values = piece Int.toNat dom_sizes domains i ∧
        ooe.lits = (piece orderLitCount dom_sizes dom_lits i).map Lit.mk ∧
        (0 < dom_sizes.getD i 0 →
          (ooe.values.length : Int) = dom_sizes.getD i 0 ∧
          (ooe.lits.length : Int) = dom_sizes.getD i 0 - 1) ∧
        (dom_sizes.getD i 0 ≤ 0 →
          ooe.values = [] ∧ ooe.lits = [] ∧
          cellsBefore Int.toNat dom_sizes (i + 1) = cellsBefore Int.toNat dom_sizes i ∧
          cellsBefore orderLitCount dom_sizes (i + 1)
            = cellsBefore orderLitCount dom_sizes i)) ∧
      (graph.length : Int) = n_edges ∧
      (edge_lits_l.length : Int) = n_edges ∧
      (∀ i : Nat, (i : Int) < n_edges →
        ∃ u v l : Int, edges[2 * i]? = some u ∧ edges[2 * i + 1]? = some v ∧
          edge_lits[i]? = some l ∧
          graph[i]? = some (u, v) ∧ edge_lits_l[i]? = some (Lit.mk l)) := by
  obtain ⟨n, rfl⟩ := Int.eq_ofNat_of_zero_le hv
  simp only [Int.toNat_ofNat] at hdomains hdomlits hdomainsMax hdomlitsMax
  have hds' : n ≤ dom_sizes.length := by omega
  refine ⟨(List.range n).map (fun k =>
      ⟨(piece orderLitCount dom_sizes dom_lits k).map Lit.mk,
        piece Int.toNat dom_sizes domains k⟩),
    (List.range n_edges.toNat).map (fun i => (edges.getD (2 * i) 0, edges.getD (2 * i + 1) 0)),
    (edge_lits.take n_edges.toNat).map Lit.mk, ?_, ?_, ?_, ?_, ?_, ?_⟩
  · unfold Glucose_AddGraphDivision
    rw [forLoop_addVertex dom_sizes domains dom_lits n hds' hdomains hdomlits hdomainsMax
        hdomlitsMax, ok_bind,
      forLoop_pushEdge edges n_edges hedges hedgesMax, ok_bind,
      forLoop_pushLit edge_lits [] n_edges hedgeLits, ok_bind]
    rfl
  · rw [List.length_map, List.length_range]
  · intro i hi
    have hin : i < n := by omega
    have hi1 : i < dom_sizes.length := by omega
    have hLs := cellsBefore_succ orderLitCount dom_sizes i hi1
    have hDs := cellsBefore_succ Int.toNat dom_sizes i hi1
    have hg := getD_eq_getElem dom_sizes i hi1
    have hvl := piece_length Int.toNat dom_sizes domains i n hin hds' hdomains
    have hll := piece_length orderLitCount dom_sizes dom_lits i n hin hds' hdomlits
    refine ⟨_, by rw [List.getElem?_map, List.getElem?_range hin]; rfl, rfl, rfl, ?_, ?_⟩
    · intro hpos
      constructor
      · show ((piece Int.toNat dom_sizes domains i).length : Int) = _
        rw [hvl]
        omega
      · show (((piece orderLitCount dom_sizes dom_lits i).map Lit.mk).length : Int) = _
        rw [List.length_map, hll]
        unfold orderLitCount
        omega
    · intro hnonpos
      have h0 : (dom_sizes.getD i 0).toNat = 0 := by omega
      have h1 : orderLitCount (dom_sizes.getD i 0) = 0 := by unfold orderLitCount; omega
      refine ⟨?_, ?_, ?_, ?_⟩
      · show piece Int.toNat dom_sizes domains i = []
        exact List.eq_nil_of_length_eq_zero (by rw [hvl, h0])
      · show (piece orderLitCount dom_sizes dom_lits i).map Lit.mk = []
        have hnil : piece orderLitCount dom_sizes dom_lits i = [] :=
          List.eq_nil_of_length_eq_zero (by rw [hll, h1])
        rw [hnil]
        rfl
      · rw [hDs, ← hg, h0]
        rfl
      · rw [hLs, ← hg, h1]
        rfl
  · rw [List.length_map, List.length_range]
    omega
  · exact copied_length edge_lits n_edges he hedgeLits
  · intro i hi
    have hin : i < n_edges.toNat := by omega
    have hil : i < edge_lits.length := by omega
    obtain ⟨u, v, hu, hv', hg⟩ := edges_getElem? edges n_edges.toNat i hin (by omega)
    refine ⟨u, v, edge_lits[i], hu, hv', List.getElem?_eq_getElem hil, hg, ?_⟩
    rw [getElem?_take_map Lit.mk edge_lits _ i hin, List.getElem?_eq_getElem hil]
    rfl

/-- Witness of C4, at three vertices, the middle one without a domain, and two edges. -/
theorem Glucose_AddGraphDivision_witness :
    ∃ (vertices : List OptionalOrderEncoding) (graph : List (Int × Int))
        (edge_lits_l : List Lit),
      Glucose_AddGraphDivision (recorder true) [] 3 [2, 0, 3] [1, 2, 5, 6, 7] [10, 20, 30] 2
          [0, 1, 1, 2] [40, 50]
        = .ok (1, [.GraphDivision vertices graph edge_lits_l]) ∧
      (vertices.length : Int) = 3 ∧
      (graph.length : Int) = 2 ∧
      (edge_lits_l.length : Int) = 2 ∧
      vertices[1]? = some ⟨[], []⟩ := by
  obtain ⟨vertices, graph, edge_lits_l, h, hv, hvert, hg, hel, -⟩ :=
    Glucose_AddGraphDivision_spec (recorder true) [] 3 [2, 0, 3] [1, 2, 5, 6, 7]
      [10, 20, 30] 2 [0, 1, 1, 2] [40, 50] (by decide) (by decide) (by decide) (by decide)
      (by decide) (by decide) (by decide) (by decide) (by decide) (by decide)
  obtain ⟨ooe, hooe, -, -, -, hempty⟩ := hvert 1 (by decide)
  obtain ⟨hvals, hlits, -, -⟩ := hempty (by decide)
  refine ⟨vertices, graph, edge_lits_l, h, hv, hg, hel, ?_⟩
  rw [hooe]
  cases ooe
  simp only at hvals hlits
  rw [hvals, hlits]

/-! ## Active vertices connected -/

/-- C5. `Glucose_AddActiveVerticesConnected` passes to the constraint the first
`n_vertices` cells of `lits` as vertex literals, in order, and `n_edges` edges in
order, edge `i` being the pair `(edges[2i], edges[2i+1])`. -/
theorem Glucose_AddActiveVerticesConnected_spec {σ : Type} (api : SolverApi σ) (solver : σ)
    (n_vertices : Int) (lits : List Int) (n_edges : Int) (edges : List Int)
    (hv : 0 ≤ n_vertices) (he : 0 ≤ n_edges)
    (hlits : n_vertices ≤ lits.length) (hedges : 2 * n_edges ≤ edges.length)
    (hint : 2 * n_edges ≤ INT_MAX) :
    ∃ (g_lits : List Lit) (g_edges : List (Int × Int)),
      Glucose_AddActiveVerticesConnected api solver n_vertices lits n_edges edges
        = .ok (if (api.addConstraint solver (.ActiveVerticesConnected g_lits g_edges)).1
                then 1 else 0,
              (api.addConstraint solver (.ActiveVerticesConnected g_lits g_edges)).2) ∧
      (g_lits.length : Int) = n_vertices ∧
      (∀ i : Nat, (i : Int) < n_vertices → g_lits[i]? = (lits[i]?).map Lit.mk) ∧
      (g_edges.length : Int) = n_edges ∧
      (∀ i : Nat, (i : Int) < n_edges →
        ∃ u v : Int, edges[2 * i]? = some u ∧ edges[2 * i + 1]? = some v ∧
          g_edges[i]? = some (u, v)) := by
  refine ⟨(lits.take n_vertices.toNat).map Lit.mk,
    (List.range n_edges.toNat).map (fun i => (edges.getD (2 * i) 0, edges.getD (2 * i + 1) 0)),
    ?_, copied_length lits n_vertices hv hlits, ?_, ?_, ?_⟩
  · unfold Glucose_AddActiveVerticesConnected
    rw [forLoop_pushLit lits [] n_vertices hlits, ok_bind,
      forLoop_pushEdge edges n_edges hedges hint, ok_bind]
    rfl
  · intro i hi
    exact getElem?_take_map Lit.mk lits _ i (by omega)
  · rw [List.length_map, List.length_range]
    omega
  · intro i hi
    exact edges_getElem? edges n_edges.toNat i (by omega) (by omega)

/-- Witness of C5, at the path graph of scenario B: vertices 0..3, `edges = [0,1,1,2,2,3]`,
`n_edges = 3`. -/
theorem Glucose_AddActiveVerticesConnected_witness :
    ∃ (g_lits : List Lit) (g_edges : List (Int × Int)),
      Glucose_AddActiveVerticesConnected (recorder true) [] 4 [0, 2, 4, 6] 3 [0, 1, 1, 2, 2, 3]
        = .ok (1, [.ActiveVerticesConnected g_lits g_edges]) ∧
      (g_lits.length : Int) = 4 ∧
      (g_edges.length : Int) = 3 ∧
      (∀ i : Nat, (i : Int) < 3 →
        ∃ u v : Int, ([0, 1, 1, 2, 2, 3] : List Int)[2 * i]? = some u ∧
          ([0, 1, 1, 2, 2, 3] : List Int)[2 * i + 1]? = some v ∧
          g_edges[i]? = some (u, v)) := by
  obtain ⟨g_lits, g_edges, h, hl, -, he, hedges⟩ :=
    Glucose_AddActiveVerticesConnected_spec (recorder true) [] 4 [0, 2, 4, 6] 3
      [0, 1, 1, 2, 2, 3] (by decide) (by decide) (by decide) (by decide) (by decide)
  exact ⟨g_lits, g_edges, h, hl, he, hedges⟩

/-! ## Return value of the registration entry points -/

/-- C6. Every constraint registration entry point returns the verdict of
`Solver::addConstraint` on the constraint it built: a call returns `r` and leaves the
solver `s'` exactly when its loops over the flat arrays complete and `addConstraint`,
given the constraint made of what they collected, answers `ok` and leaves `s'`, where
`r` is 0 exactly when `ok` is false, 1 exactly when `ok` is true, and nothing else. -/
theorem registration_returns_addConstraint_verdict {σ : Type} (api : SolverApi σ) (solver : σ) :
    (∀ (n_terms : Int) (domain_size lits domain coefs : List Int) (constant r : Int) (s' : σ),
      Glucose_AddOrderEncodingLinear api solver n_terms domain_size lits domain coefs constant
          = .ok (r, s') ↔
        ∃ (st : LinearLocals) (ok : Bool),
          forLoop 0 n_terms (addTerm domain_size lits domain coefs) ⟨[], 0, 0⟩ = .ok st ∧
          api.addConstraint solver (.OrderEncodingLinear st.terms constant) = (ok, s') ∧
          (r = 0 ↔ ok = false) ∧ (r = 1 ↔ ok = true) ∧ (r = 0 ∨ r = 1)) ∧
    (∀ (n_vertices : Int) (lits : List Int) (n_edges : Int) (edges : List Int) (r : Int)
        (s' : σ),
      Glucose_AddActiveVerticesConnected api solver n_vertices lits n_edges edges
          = .ok (r, s') ↔
        ∃ (g_lits : List Lit) (g_edges : List (Int × Int)) (ok : Bool),
          forLoop 0 n_vertices (pushLit lits) [] = .ok g_lits ∧
          forLoop 0 n_edges (pushEdge edges) [] = .ok g_edges ∧
          api.addConstraint solver (.ActiveVerticesConnected g_lits g_edges) = (ok, s') ∧
          (r = 0 ↔ ok = false) ∧ (r = 1 ↔ ok = true) ∧ (r = 0 ∨ r = 1)) ∧
    (∀ (n_vars : Int) (domain_size lits : List Int) (n_supports : Int) (supports : List Int)
        (r : Int) (s' : σ),
      Glucose_AddDirectEncodingExtensionSupports false api solver n_vars domain_size lits
          n_supports supports = .ok (r, s') ↔
        ∃ (st : List (List Lit) × Int) (g_supports : List (List Int)) (ok : Bool),
          forLoop 0 n_vars (addVarLits domain_size lits) ([], 0) = .ok st ∧
          forLoop 0 n_supports (addSupport supports n_vars) [] = .ok g_supports ∧
          api.addConstraint solver (.DirectEncodingExtensionSupports st.1 g_supports)
            = (ok, s') ∧
          (r = 0 ↔ ok = false) ∧ (r = 1 ↔ ok = true) ∧ (r = 0 ∨ r = 1)) ∧
    (∀ (n_vertices : Int) (dom_sizes domains dom_lits : List Int) (n_edges : Int)
        (edges edge_lits : List Int) (r : Int) (s' : σ),
      Glucose_AddGraphDivision api solver n_vertices dom_sizes domains dom_lits n_edges edges
          edge_lits = .ok (r, s') ↔
        ∃ (st : DivisionLocals) (graph : List (Int × Int)) (edge_lits_l : List Lit)
            (ok : Bool),
          forLoop 0 n_vertices (addVertex dom_sizes domains dom_lits) ⟨[], 0, 0⟩ = .ok st ∧
          forLoop 0 n_edges (pushEdge edges) [] = .ok graph ∧
          forLoop 0 n_edges (pushLit edge_lits) [] = .ok edge_lits_l ∧
          api.addConstraint solver (.GraphDivision st.vertices graph edge_lits_l)
            = (ok, s') ∧
          (r = 0 ↔ ok = false) ∧ (r = 1 ↔ ok = true) ∧ (r = 0 ∨ r = 1)) ∧
    (∀ (trait_object : Nat),
        ∃ ok : Bool,
          api.addConstraint solver (.RustExtraConstraint ⟨trait_object⟩)
            = (ok, (Glucose_AddRustExtraConstraint api solver trait_object).2) ∧
          ((Glucose_AddRustExtraConstraint api solver trait_object).1 = 0 ↔ ok = false) ∧
          ((Glucose_AddRustExtraConstraint api solver trait_object).1 = 1 ↔ ok = true) ∧
          ((Glucose_AddRustExtraConstraint api solver trait_object).1 = 0 ∨
            (Glucose_AddRustExtraConstraint api solver trait_object).1 = 1)) := by
  refine ⟨?_, ?_, ?_, ?_, ?_⟩
  · intro n_terms domain_size lits domain coefs constant r s'
    constructor
    · intro h
      unfold Glucose_AddOrderEncodingLinear at h
      obtain ⟨st, hst, h⟩ := bind_eq_ok _ _ _ h
      obtain ⟨hr, hs⟩ := ok_pair_inj _ _ _ _ h
      subst hr hs
      exact ⟨st, _, hst, rfl, ite_verdict _⟩
    · rintro ⟨st, ok, hst, hadd, h0, h1, -⟩
      unfold Glucose_AddOrderEncodingLinear
      rw [hst, ok_bind, eq_ite_of_verdict ok r h0 h1]
      show Except.ok (_, _) = Except.ok (_, _)
      rw [hadd]
  · intro n_vertices lits n_edges edges r s'
    constructor
    · intro h
      unfold Glucose_AddActiveVerticesConnected at h
      obtain ⟨g_lits, hl, h⟩ := bind_eq_ok _ _ _ h
      obtain ⟨g_edges, he, h⟩ := bind_eq_ok _ _ _ h
      obtain ⟨hr, hs⟩ := ok_pair_inj _ _ _ _ h
      subst hr hs
      exact ⟨g_lits, g_edges, _, hl, he, rfl, ite_verdict _⟩
    · rintro ⟨g_lits, g_edges, ok, hl, he, hadd, h0, h1, -⟩
      unfold Glucose_AddActiveVerticesConnected
      rw [hl, ok_bind, he, ok_bind, eq_ite_of_verdict ok r h0 h1]
      show Except.ok (_, _) = Except.ok (_, _)
      rw [hadd]
  · intro n_vars domain_size lits n_supports supports r s'
    constructor
    · intro h
      unfold Glucose_AddDirectEncodingExtensionSupports at h
      rw [if_neg (by decide)] at h
      obtain ⟨st, hst, h⟩ := bind_eq_ok _ _ _ h
      obtain ⟨g_supports, hsup, h⟩ := bind_eq_ok _ _ _ h
      obtain ⟨hr, hs⟩ := ok_pair_inj _ _ _ _ h
      subst hr hs
      exact ⟨st, g_supports, _, hst, hsup, rfl, boolToInt32_verdict _⟩
    · rintro ⟨st, g_supports, ok, hst, hsup, hadd, h0, h1, -⟩
      unfold Glucose_AddDirectEncodingExtensionSupports
      rw [if_neg (by decide), hst, ok_bind, hsup, ok_bind,
        eq_boolToInt32_of_verdict ok r h0 h1]
      show Except.ok (_, _) = Except.ok (_, _)
      rw [hadd]
  · intro n_vertices dom_sizes domains dom_lits n_edges edges edge_lits r s'
    constructor
    · intro h
      unfold Glucose_AddGraphDivision at h
      obtain ⟨st, hst, h⟩ := bind_eq_ok _ _ _ h
      obtain ⟨graph, hg, h⟩ := bind_eq_ok _ _ _ h
      obtain ⟨edge_lits_l, hel, h⟩ := bind_eq_ok _ _ _ h
      obtain ⟨hr, hs⟩ := ok_pair_inj _ _ _ _ h
      subst hr hs
      exact ⟨st, graph, edge_lits_l, _, hst, hg, hel, rfl, boolToInt32_verdict _⟩
    · rintro ⟨st, graph, edge_lits_l, ok, hst, hg, hel, hadd, h0, h1, -⟩
      unfold Glucose_AddGraphDivision
      rw [hst, ok_bind, hg, ok_bind, hel, ok_bind, eq_boolToInt32_of_verdict ok r h0 h1]
      show Except.ok (_, _) = Except.ok (_, _)
      rw [hadd]
  · intro trait_object
    exact ⟨_, rfl, ite_verdict _⟩

/-- Witness of C6, on a solver that refuses every constraint: every entry point
returns 0. -/
theorem registration_returns_addConstraint_verdict_witness :
    (∃ (st : LinearLocals) (ok : Bool),
      forLoop 0 1 (addTerm [2] [4] [0, 1] [1]) ⟨[], 0, 0⟩ = .ok st ∧
      (recorder false).addConstraint [] (.OrderEncodingLinear st.terms 0)
        = (ok, [.OrderEncodingLinear [⟨[⟨4⟩], [0, 1], 1⟩] 0]) ∧
      ((0 : Int) = 0 ↔ ok = false) ∧ ((0 : Int) = 1 ↔ ok = true) ∧
      ((0 : Int) = 0 ∨ (0 : Int) = 1)) ∧
    (∃ (g_lits : List Lit) (g_edges : List (Int × Int)) (ok : Bool),
      forLoop 0 2 (pushLit [0, 2]) [] = .ok g_lits ∧
      forLoop 0 1 (pushEdge [0, 1]) [] = .ok g_edges ∧
      (recorder false).addConstraint [] (.ActiveVerticesConnected g_lits g_edges)
        = (ok, [.ActiveVerticesConnected [⟨0⟩, ⟨2⟩] [(0, 1)]]) ∧
      ((0 : Int) = 0 ↔ ok = false) ∧ ((0 : Int) = 1 ↔ ok = true) ∧
      ((0 : Int) = 0 ∨ (0 : Int) = 1)) ∧
    (∃ (st : List (List Lit) × Int) (g_supports : List (List Int)) (ok : Bool),
      forLoop 0 1 (addVarLits [2] [0, 2]) ([], 0) = .ok st ∧
      forLoop 0 1 (addSupport [1] 1) [] = .ok g_supports ∧
      (recorder false).addConstraint [] (.DirectEncodingExtensionSupports st.1 g_supports)
        = (ok, [.DirectEncodingExtensionSupports [[⟨0⟩, ⟨2⟩]] [[1]]]) ∧
      ((0 : Int) = 0 ↔ ok = false) ∧ ((0 : Int) = 1 ↔ ok = true) ∧
      ((0 : Int) = 0 ∨ (0 : Int) = 1)) ∧
    (∃ (st : DivisionLocals) (graph : List (Int × Int)) (edge_lits_l : List Lit)
        (ok : Bool),
      forLoop 0 2 (addVertex [2, 0] [1, 2] [8]) ⟨[], 0, 0⟩ = .ok st ∧
      forLoop 0 1 (pushEdge [0, 1]) [] = .ok graph ∧
      forLoop 0 1 (pushLit [6]) [] = .ok edge_lits_l ∧
      (recorder false).addConstraint [] (.GraphDivision st.vertices graph edge_lits_l)
        = (ok, [.GraphDivision [⟨[⟨8⟩], [1, 2]⟩, ⟨[], []⟩] [(0, 1)] [⟨6⟩]]) ∧
      ((0 : Int) = 0 ↔ ok = false) ∧ ((0 : Int) = 1 ↔ ok = true) ∧
      ((0 : Int) = 0 ∨ (0 : Int) = 1)) ∧
    (∃ ok : Bool,
      (recorder false).addConstraint [] (.RustExtraConstraint ⟨7⟩)
        = (ok, (Glucose_AddRustExtraConstraint (recorder false) [] 7).2) ∧
      ((Glucose_AddRustExtraConstraint (recorder false) [] 7).1 = 0 ↔ ok = false) ∧
      ((Glucose_AddRustExtraConstraint (recorder false) [] 7).1 = 1 ↔ ok = true) ∧
      ((Glucose_AddRustExtraConstraint (recorder false) [] 7).1 = 0 ∨
        (Glucose_AddRustExtraConstraint (recorder false) [] 7).1 = 1)) :=
  ⟨((registration_returns_addConstraint_verdict (recorder false) []).1
      1 [2] [4] [0, 1] [1] 0 0 _).mp (by decide),
    ((registration_returns_addConstraint_verdict (recorder false) []).2.1
      2 [0, 2] 1 [0, 1] 0 _).mp (by decide),
    ((registration_returns_addConstraint_verdict (recorder false) []).2.2.1
      1 [2] [0, 2] 1 [1] 0 _).mp (by decide),
    ((registration_returns_addConstraint_verdict (recorder false) []).2.2.2.1
      2 [2, 0] [1, 2] [8] 1 [0, 1] [6] 0 _).mp (by decide),
    (registration_returns_addConstraint_verdict (recorder false) []).2.2.2.2 7⟩

/-! ## Clause addition -/

/-- C7. `Glucose_AddClause` hands `addClause` the clause made of the first `n_lits`
cells of `lits`, in order and with their integer codes unchanged, and returns 0
exactly when `addClause` reports failure and 1 exactly when it reports success. -/
theorem Glucose_AddClause_spec {σ : Type} (api : SolverApi σ) (solver : σ) (lits : List Int)
    (n_lits : Int) (hn : 0 ≤ n_lits) (hlen : n_lits ≤ lits.length) :
    ∃ (clause : List Lit) (ok : Bool) (r : Int) (s' : σ),
      api.addClause solver clause = (ok, s') ∧
      Glucose_AddClause api solver lits n_lits = .ok (r, s') ∧
      (r = 0 ↔ ok = false) ∧ (r = 1 ↔ ok = true) ∧
      (clause.length : Int) = n_lits ∧
      (∀ i : Nat, (i : Int) < n_lits → (clause[i]?).map Lit.x = lits[i]?) := by
  refine ⟨(lits.take n_lits.toNat).map Lit.mk, _, _, _, rfl, ?_, boolToInt32_eq_zero _,
    boolToInt32_eq_one _, copied_length lits n_lits hn hlen, ?_⟩
  · unfold Glucose_AddClause
    rw [forLoop_pushLit lits [] n_lits hlen, ok_bind]
    rfl
  · intro i hi
    rw [getElem?_take_map Lit.mk lits _ i (by omega)]
    cases lits[i]? <;> rfl

/-- Witness of C7, at the clause `[2, 5, 6]` and a solver that refuses it. -/
theorem Glucose_AddClause_witness :
    ∃ (clause : List Lit) (ok : Bool) (r : Int) (s' : List Constraint),
      (recorder false).addClause [] clause = (ok, s') ∧
      Glucose_AddClause (recorder false) [] [2, 5, 6] 3 = .ok (r, s') ∧
      (r = 0 ↔ ok = false) ∧ (r = 1 ↔ ok = true) ∧
      (clause.length : Int) = 3 ∧
      (∀ i : Nat, (i : Int) < 3 → (clause[i]?).map Lit.x = ([2, 5, 6] : List Int)[i]?) :=
  Glucose_AddClause_spec (recorder false) [] [2, 5, 6] 3 (by decide) (by decide)

/-! ## Copy of a reason -/

/-- C8. `Glucose_CustomPropagatorCopyReason` only appends: the buffer after the call is
the buffer before it followed by `lits[0], ..., lits[n_lits-1]`. -/
theorem Glucose_CustomPropagatorCopyReason_appends (reason_vec : List Lit) (n_lits : Int)
    (lits : List Int) (hn : 0 ≤ n_lits) (hlen : n_lits ≤ lits.length) :
    ∃ out : List Lit,
      Glucose_CustomPropagatorCopyReason reason_vec n_lits lits = .ok out ∧
      out = reason_vec ++ (lits.take n_lits.toNat).map Lit.mk ∧
      (out.length : Int) = reason_vec.length + n_lits ∧
      (∀ i : Nat, i < reason_vec.length → out[i]? = reason_vec[i]?) ∧
      (∀ i : Nat, (i : Int) < n_lits → out[reason_vec.length + i]? = (lits[i]?).map Lit.mk) ∧
      (n_lits = 0 → out = reason_vec) := by
  refine ⟨reason_vec ++ (lits.take n_lits.toNat).map Lit.mk, ?_, rfl, ?_, ?_, ?_, ?_⟩
  · unfold Glucose_CustomPropagatorCopyReason
    exact forLoop_pushLit lits reason_vec n_lits hlen
  · rw [List.length_append, List.length_map, List.length_take]
    omega
  · intro i hi
    exact List.getElem?_append_left hi
  · intro i hi
    rw [List.getElem?_append_right (by omega), Nat.add_sub_cancel_left,
      getElem?_take_map Lit.mk lits _ i (by omega)]
  · intro h0
    subst h0
    simp

/-- Witness of C8, at a buffer holding one literal, to which two are copied. -/
theorem Glucose_CustomPropagatorCopyReason_witness :
    ∃ out : List Lit,
      Glucose_CustomPropagatorCopyReason [⟨9⟩] 2 [4, 7, 11] = .ok out ∧
      out = [⟨9⟩] ++ (([4, 7, 11] : List Int).take 2).map Lit.mk ∧
      (out.length : Int) = 1 + 2 := by
  obtain ⟨out, h, hout, hlen, -⟩ :=
    Glucose_CustomPropagatorCopyReason_appends [⟨9⟩] 2 [4, 7, 11] (by decide) (by decide)
  exact ⟨out, h, hout, hlen⟩

/-! ## Model value of a variable -/

/-- C9. `Glucose_GetModelValueVar` returns 1 exactly when the model value of the variable
is true and 0 in every other case, and leaves the solver as it was. -/
theorem Glucose_GetModelValueVar_spec {σ : Type} (api : SolverApi σ) (solver : σ) (var : Int) :
    ((Glucose_GetModelValueVar api solver var).1 = 1 ↔ api.modelValue solver var = lbool.l_True) ∧
    ((Glucose_GetModelValueVar api solver var).1 = 0 ↔ api.modelValue solver var ≠ lbool.l_True) ∧
    (api.modelValue solver var = lbool.l_False → (Glucose_GetModelValueVar api solver var).1 = 0) ∧
    (api.modelValue solver var = lbool.l_Undef → (Glucose_GetModelValueVar api solver var).1 = 0) ∧
    ((Glucose_GetModelValueVar api solver var).1 = 0 ∨
      (Glucose_GetModelValueVar api solver var).1 = 1) ∧
    (Glucose_GetModelValueVar api solver var).2 = solver := by
  unfold Glucose_GetModelValueVar
  cases h : api.modelValue solver var <;> simp

/-! ## Propagation through the wrapper of an external propagator -/

/-- C10. `RustExtraConstraint::propagate` registers the constraint for undo on the
variable of `p` once, then calls the external propagate callback on the solver so
changed, whatever the callback returns; it returns true exactly when the callback returns
a non-zero value.  `registered` is the solver after the registration, `pending` the value
of `num_pending_propagation()`, `(r, after)` what the callback returns and the solver it
leaves, `journal` what was written down before the call. -/
theorem RustExtraConstraint_propagate_spec {σ : Type} (api : SolverApi σ)
    (this : RustExtraConstraint) (solver : σ) (p : Lit) (journal : List Event)
    (registered after : σ) (pending r : Int)
    (hreg : registered = api.registerUndo solver (api.var p) (.RustExtraConstraint this))
    (hpending : pending = api.num_pending_propagation registered (.RustExtraConstraint this))
    (hcall : api.Glucose_CallCustomPropagatorPropagate registered (.RustExtraConstraint this)
      this.trait_object_ p.x pending = (r, after)) :
    RustExtraConstraint.propagate api this solver p = (decide (r ≠ 0), after) ∧
    ((RustExtraConstraint.propagate api this solver p).1 = true ↔ r ≠ 0) ∧
    RustExtraConstraint.propagate api.traced this (solver, journal) p
      = (decide (r ≠ 0), (after, journal ++
          [Event.registerUndo (api.var p) (.RustExtraConstraint this),
            Event.callPropagate (.RustExtraConstraint this) this.trait_object_ p.x
              pending r])) := by
  subst hreg hpending
  have h1 : RustExtraConstraint.propagate api this solver p = (decide (r ≠ 0), after) := by
    unfold RustExtraConstraint.propagate
    simp only [hcall, bne_zero_eq_decide]
  refine ⟨h1, ?_, ?_⟩
  · rw [h1]
    simp
  · unfold RustExtraConstraint.propagate SolverApi.traced
    simp only [hcall, bne_zero_eq_decide, List.append_assoc, List.singleton_append]

/-- Witness of C10, on a callback that reports a conflict (returns 0): the registration for undo
is made all the same, before the callback, and `propagate` returns false. -/
theorem RustExtraConstraint_propagate_witness :
    RustExtraConstraint.propagate (recorder false) ⟨7⟩ [] ⟨10⟩ = (decide ((0 : Int) ≠ 0), []) ∧
    ((RustExtraConstraint.propagate (recorder false) ⟨7⟩ [] ⟨10⟩).1 = true ↔ (0 : Int) ≠ 0) ∧
    RustExtraConstraint.propagate (recorder false).traced ⟨7⟩ ([], []) ⟨10⟩
      = (decide ((0 : Int) ≠ 0), ([], [] ++
          [Event.registerUndo 5 (.RustExtraConstraint ⟨7⟩),
            Event.callPropagate (.RustExtraConstraint ⟨7⟩) 7 10 0 0])) :=
  RustExtraConstraint_propagate_spec (recorder false) ⟨7⟩ [] ⟨10⟩ [] [] [] 0 0 rfl rfl rfl

end GlucoseBridge
